import Mathlib

/-!
Verification development for the `axaou-server` repository (the server tier of
the All-of-Us GWAS browser).  The Rust sources are shallowly embedded: pure
functions become Lean functions, handlers become functions of the values they
receive from the column store (the store itself is external), `f64` statistics
become `ℚ` (they are only copied and compared), machine integers become
`Nat`/`Int` with explicit wrap-around where overflow matters, and fallible code
returns `Except`/`Option`.
-/

namespace AxAoU

/-! ## Basic character and string utilities (Rust `str` primitives)

The Rust code works on UTF-8 strings; all strings handled by the routines
verified here (contig names, variant ids, SQL text, debug representations)
are ASCII, and the embedding models the relevant `str` primitives over
`List Char` accordingly.
-/

/-- Rust `str::split(sep)` for a one-character separator: the list of (possibly
empty) chunks between occurrences of `sep`.  `"".split(sep)` yields `[""]`. -/
def splitOnChar (sep : Char) : List Char → List (List Char)
  | [] => [[]]
  | c :: rest =>
    if c = sep then
      [] :: splitOnChar sep rest
    else
      match splitOnChar sep rest with
      | [] => [[c]]
      | h :: t => (c :: h) :: t

/-- Rust `char::is_ascii`-range uppercasing as used by `str::to_uppercase` on
the ASCII contig strings handled here: lowercase ASCII letters are shifted
down by 32, all other characters are unchanged. -/
def rustUpper (c : Char) : Char :=
  if 97 ≤ c.toNat ∧ c.toNat ≤ 122 then Char.ofNat (c.toNat - 32) else c

/-- Rust `str::trim_start_matches("chr")`: repeatedly removes a leading
`"chr"` (lowercase, as written in the source). -/
def stripChr : List Char → List Char
  | 'c' :: 'h' :: 'r' :: rest => stripChr rest
  | l => l

/-- ASCII digit test used by the integer parsers. -/
def isDigitChar (c : Char) : Bool := 48 ≤ c.toNat ∧ c.toNat ≤ 57

/-- Digits-only decimal reading shared by the integer parsers: `none` unless
the list is a nonempty run of ASCII digits, otherwise the decimal value. -/
def digitsToNat? (cs : List Char) : Option Nat :=
  if cs = [] then none
  else if cs.all isDigitChar then
    some (cs.foldl (fun a c => 10 * a + (c.toNat - 48)) 0)
  else none

/-- Sign handling of Rust signed-integer parsing: an optional leading `+` or
`-`. -/
def signSplit : List Char → Int × List Char
  | '+' :: rest => (1, rest)
  | '-' :: rest => (-1, rest)
  | cs => (1, cs)

/-- Optional leading `+` of Rust unsigned-integer parsing. -/
def stripPlus : List Char → List Char
  | '+' :: rest => rest
  | cs => cs

/-- Rust `str::parse::<i64>()`: an optional sign followed by a nonempty digit
run, rejected when the value does not fit in a signed 64-bit integer. -/
def parseI64 (cs : List Char) : Option Int :=
  let sd := signSplit cs
  match digitsToNat? sd.2 with
  | none => none
  | some n =>
    let v : Int := sd.1 * n
    if -(2 ^ 63) ≤ v ∧ v ≤ 2 ^ 63 - 1 then some v else none

/-- Rust `str::parse::<u32>()`: an optional `+` sign followed by a nonempty
digit run, rejected when the value does not fit in 32 bits. -/
def parseU32 (cs : List Char) : Option Nat :=
  match digitsToNat? (stripPlus cs) with
  | none => none
  | some n => if n < 2 ^ 32 then some n else none

/-- Decimal digit characters of a natural number, most significant first
(Rust `u32`/`u64` `Display`). -/
def natToChars (n : Nat) : List Char :=
  if n = 0 then ['0']
  else (Nat.digits 10 n).reverse.map (fun d => Char.ofNat (48 + d))

/-- Decimal rendering of a signed integer (Rust `i32`/`i64` `Display`). -/
def intToChars (v : Int) : List Char :=
  if v < 0 then '-' :: natToChars (-v).toNat else natToChars v.toNat

/-- Rust `str::trim` over the ASCII whitespace occurring in SQL text. -/
def rustTrim (cs : List Char) : List Char :=
  ((cs.dropWhile Char.isWhitespace).reverse.dropWhile Char.isWhitespace).reverse

/-- Rust `str::lines`: split on `'\n'`, drop one trailing `'\r'` per line, and
drop the final segment when it is empty (so a trailing newline does not
produce an extra empty line and `""` has no lines). -/
def rustLines (cs : List Char) : List (List Char) :=
  let segs := splitOnChar '\n' cs
  let segs :=
    match segs.getLast? with
    | some [] => segs.dropLast
    | _ => segs
  segs.map (fun l => if l.getLast? = some '\r' then l.dropLast else l)

/-- Rust `<[_]>::starts_with` for the two-character comment marker `--`. -/
def startsWithDashDash : List Char → Bool
  | '-' :: '-' :: _ => true
  | _ => false

/-! ## Error type (`src/error.rs`)

`AppError` as declared in `error.rs`; the `HailDecoder` and `JoinError`
payloads are external library errors and are carried as their display
strings.  Under `IntoResponse`, `invalidInterval` maps to HTTP 400,
`notFound` to 404, and the remaining constructors to 500.
-/

inductive AppError where
  | hailDecoder (msg : String)
  | dataTransformError (msg : String)
  | joinError (msg : String)
  | invalidInterval (msg : String)
  | notFound (msg : String)
deriving DecidableEq

/-! ## Coordinate codec (`src/clickhouse/xpos.rs`) -/

/-- Wrap-around of a signed 64-bit value, as Rust release-mode `i64`
arithmetic behaves on overflow. -/
def wrap64 (v : Int) : Int := (v + 2 ^ 63) % 2 ^ 64 - 2 ^ 63

/-- Contig number computed inside `compute_xpos`: strip the `chr` prefix,
uppercase, map `X`/`Y`/`M`/`MT` to 23/24/25, and otherwise fall back to
`parse::<i64>().unwrap_or(0)` on the stripped (not uppercased) form. -/
def contigNum (contig : List Char) : Int :=
  if (stripChr contig).map rustUpper = ['X'] then 23
  else if (stripChr contig).map rustUpper = ['Y'] then 24
  else if (stripChr contig).map rustUpper = ['M'] ∨
      (stripChr contig).map rustUpper = ['M', 'T'] then 25
  else (parseI64 (stripChr contig)).getD 0

/-- `compute_xpos` (xpos.rs, lines 19–33): `contig_num * 1_000_000_000 +
position`, or `0` when the contig number comes out as `0`.  `position` is a
`u32`, embedded as a `Nat` below `2^32`. -/
def compute_xpos (contig : List Char) (position : Nat) : Int :=
  if contigNum contig = 0 then 0
  else wrap64 (contigNum contig * 1000000000 + position)

/-- `parse_variant_id` (xpos.rs, lines 36–61): split on `-` into exactly four
parts, parse the position as `u32`, validate the contig through
`compute_xpos`, and return `(xpos, ref, alt)`. -/
def parse_variant_id (variant_id : String) : Except AppError (Int × String × String) :=
  match splitOnChar '-' variant_id.toList with
  | [contig, posChars, refAllele, altAllele] =>
    match parseU32 posChars with
    | none =>
      Except.error (AppError.invalidInterval
        ("Invalid position in variant ID: " ++ String.mk posChars))
    | some pos =>
      let xpos := compute_xpos contig pos
      if xpos = 0 then
        Except.error (AppError.invalidInterval
          ("Invalid chromosome in variant ID: " ++ String.mk contig))
      else Except.ok (xpos, String.mk refAllele, String.mk altAllele)
  | _ =>
    Except.error (AppError.invalidInterval
      ("Invalid variant ID format " ++ variant_id ++ ". Expected chr-pos-ref-alt"))

/-- `make_variant_id` (manhattan.rs, lines 275–277):
`format!("{}-{}-{}-{}", contig, position, ref_allele, alt)` with an `i32`
position. -/
def make_variant_id (contig : String) (position : Int) (refAllele alt : String) : String :=
  String.mk (contig.toList ++ '-' :: intToChars position ++
    '-' :: refAllele.toList ++ '-' :: alt.toList)

/-- Modelled from the spec: `make_variant_id` imported by
`clickhouse/models.rs` from `clickhouse::xpos` is not present in the provided
`xpos.rs`; per the spec the canonical variant string form is
`{contig}-{pos}-{ref}-{alt}` with a `u32` position. -/
def make_variant_id_u32 (contig : String) (position : Nat) (refAllele alt : String) : String :=
  String.mk (contig.toList ++ '-' :: natToChars position ++
    '-' :: refAllele.toList ++ '-' :: alt.toList)

/-- Closed set of normalized contig forms named by the spec:
`{"1".."22", "X", "Y", "M", "MT"}`. -/
def validContigForms : List (List Char) :=
  [['1'], ['2'], ['3'], ['4'], ['5'], ['6'], ['7'], ['8'], ['9'],
   ['1', '0'], ['1', '1'], ['1', '2'], ['1', '3'], ['1', '4'], ['1', '5'],
   ['1', '6'], ['1', '7'], ['1', '8'], ['1', '9'], ['2', '0'], ['2', '1'],
   ['2', '2'], ['X'], ['Y'], ['M'], ['M', 'T']]

/-- Normalized form of a contig as the spec describes it: remove the optional
`chr` prefix and uppercase. -/
def normalizeContig (contig : List Char) : List Char :=
  (stripChr contig).map rustUpper

/-- A contig whose normalized form lies in the spec's closed set. -/
def validContig (contig : String) : Prop :=
  normalizeContig contig.toList ∈ validContigForms

instance (contig : String) : Decidable (validContig contig) := by
  unfold validContig; infer_instance

/-! ## Response envelope (`src/response.rs`) -/

/-- `LookupResult<T>`: the standard list-response envelope.  The query time
(`f64` seconds) is carried as a rational. -/
structure LookupResult (T : Type) where
  data : List T
  count : Nat
  storage_source : String
  time : ℚ
deriving DecidableEq

/-- `LookupResult::new`: wraps the data, setting `count` to its length and
`storage_source` to `"clickhouse"`. -/
def LookupResult.new {T : Type} (data : List T) (time : ℚ) : LookupResult T :=
  { data := data, count := data.length, storage_source := "clickhouse", time := time }

/-! ## Row and API models (`src/models.rs`, `src/clickhouse/models.rs`)

`f64` statistic columns are embedded as `ℚ` (the verified code only moves and
compares them), `u32`/`i32`/`i64` as `Nat`/`Int`.
-/

/-- Nested `{contig, position}` locus object (`models.rs`). -/
structure Locus where
  contig : String
  position : Nat
deriving DecidableEq

/-- `SignificantVariantRow` from the `significant_variants` table
(`clickhouse/models.rs`, lines 66–80). -/
structure SignificantVariantRow where
  phenotype : String
  ancestry : String
  sequencing_type : String
  xpos : Int
  contig : String
  position : Int
  ref_allele : String
  alt : String
  pvalue : ℚ
  beta : ℚ
  se : ℚ
  af : ℚ
deriving DecidableEq

/-- `VariantAssociationApi` (`models.rs`). -/
structure VariantAssociationApi where
  variant_id : String
  locus : Locus
  ref_allele : String
  alt : String
  pvalue : ℚ
  beta : ℚ
  se : ℚ
  af : ℚ
  phenotype : String
  ancestry : String
  sequencing_type : String
deriving DecidableEq

/-- Rust `i32 as u32` cast (wraps modulo `2^32`). -/
def u32cast (v : Int) : Nat := (v % 2 ^ 32).toNat

/-- `SignificantVariantRow::to_api` (`clickhouse/models.rs`, lines 84–98). -/
def SignificantVariantRow.to_api (r : SignificantVariantRow) : VariantAssociationApi :=
  { variant_id := make_variant_id_u32 r.contig (u32cast r.position) r.ref_allele r.alt
    locus := { contig := r.contig, position := u32cast r.position }
    ref_allele := r.ref_allele
    alt := r.alt
    pvalue := r.pvalue
    beta := r.beta
    se := r.se
    af := r.af
    phenotype := r.phenotype
    ancestry := r.ancestry
    sequencing_type := r.sequencing_type }

/-- `VariantAnnotationRow` (`clickhouse/models.rs`, lines 105–115). -/
structure VariantAnnotationRow where
  xpos : Int
  contig : String
  position : Nat
  ref_allele : String
  alt : String
  gene_symbol : Option String
  consequence : Option String
  af_all : Option ℚ
deriving DecidableEq

/-- `VariantAnnotationApi` (`models.rs`). -/
structure VariantAnnotationApi where
  variant_id : String
  locus : Locus
  ref_allele : String
  alt : String
  gene_symbol : Option String
  consequence : Option String
  af : Option ℚ
deriving DecidableEq

/-- `VariantAnnotationRow::to_api` (`clickhouse/models.rs`, lines 119–129). -/
def VariantAnnotationRow.to_api (r : VariantAnnotationRow) : VariantAnnotationApi :=
  { variant_id := make_variant_id_u32 r.contig r.position r.ref_allele r.alt
    locus := { contig := r.contig, position := r.position }
    ref_allele := r.ref_allele
    alt := r.alt
    gene_symbol := r.gene_symbol
    consequence := r.consequence
    af := r.af_all }

/-- `PlotRow` from the `phenotype_plots` table (`clickhouse/models.rs`). -/
structure PlotRow where
  phenotype : String
  ancestry : String
  plot_type : String
  gcs_uri : String
deriving DecidableEq

/-! ## Gene model (`src/models.rs`) -/

/-- Exon coordinates (`models.rs`). -/
structure Exon where
  feature_type : String
  start : Int
  stop : Int
  xstart : Int
  xstop : Int
deriving DecidableEq

/-- Transcript record (`models.rs`). -/
structure Transcript where
  transcript_id : String
  transcript_version : String
  gene_id : String
  gene_version : String
  chrom : String
  strand : String
  start : Int
  stop : Int
  xstart : Int
  xstop : Int
  reference_genome : String
  refseq_id : Option String
  refseq_version : Option String
  exons : List Exon
deriving DecidableEq

/-- MANE Select transcript record (`models.rs`). -/
structure ManeSelectTranscript where
  ensembl_id : String
  ensembl_version : String
  refseq_id : String
  refseq_version : String
  matched_gene_version : String
deriving DecidableEq

/-- Flattened gnomAD constraint bundle (`models.rs`). -/
structure GnomadConstraint where
  gene : String
  gene_id : String
  transcript : String
  mane_select : Bool
  flags : List String
  obs_lof : Int
  obs_mis : Int
  obs_syn : Int
  exp_lof : ℚ
  exp_mis : ℚ
  exp_syn : ℚ
  oe_lof : ℚ
  oe_lof_lower : ℚ
  oe_lof_upper : ℚ
  oe_mis : ℚ
  oe_mis_lower : ℚ
  oe_mis_upper : ℚ
  oe_syn : ℚ
  oe_syn_lower : ℚ
  oe_syn_upper : ℚ
  lof_z : ℚ
  mis_z : ℚ
  syn_z : ℚ
  pli : ℚ
deriving DecidableEq

/-- Full gene model record (`models.rs`, lines 340–368). -/
structure GeneModel where
  gene_id : String
  symbol : String
  symbol_upper_case : String
  chrom : String
  start : Int
  stop : Int
  strand : String
  xstart : Int
  xstop : Int
  canonical_transcript_id : String
  preferred_transcript_id : String
  preferred_transcript_source : String
  gencode_symbol : String
  gene_version : String
  name : String
  hgnc_id : String
  ncbi_id : String
  omim_id : String
  reference_genome : String
  alias_symbols : List String
  previous_symbols : List (Option String)
  search_terms : List String
  flags : List String
  exons : List Exon
  transcripts : List Transcript
  mane_select_transcript : Option ManeSelectTranscript
  gnomad_constraint : Option GnomadConstraint
deriving DecidableEq

/-! ## Transcript shaping (`GeneModelRow::transcripts_to_vec`,
`src/clickhouse/models.rs` lines 391–399)

The JSON parser is the external `serde_json` library; it is abstracted as a
function `parseJsonList : String → Option (List Transcript)` (`none` models a
parse failure, `serde_json`'s `Err`), and the shaping logic from the source is
total over it.
-/

/-- `transcripts_to_vec` over the `transcripts_json` column of a
`GeneModelRow`: an empty string or the literal `"[]"` short-circuits to the
empty list; otherwise `serde_json::from_str(...).unwrap_or_default()`. -/
def transcripts_to_vec (parseJsonList : String → Option (List Transcript))
    (transcripts_json : String) : List Transcript :=
  if transcripts_json = "" ∨ transcripts_json = "[]" then []
  else (parseJsonList transcripts_json).getD []

/-! ## Single-variant association lookup and plot-URI fetch (C2)

`get_association_by_variant` (`variants/annotations.rs`, lines 326–355) and
`get_manhattan_uri` (`phenotype/manhattan.rs`, lines 180–215), embedded as
functions of the value the column store returns for their single query
(`fetch_optional`, i.e. an `Option` row).  The store itself is external.
-/

/-- `get_association_by_variant`: parse the variant id (an error propagates as
HTTP 400), then wrap the optional `significant_variants` row — `Some` or
`None` alike — into a successful `LookupResult` envelope. -/
def get_association_by_variant (variant_id : String) (_analysis_id : String)
    (fetched : Option SignificantVariantRow) (t : ℚ) :
    Except AppError (LookupResult VariantAssociationApi) :=
  match parse_variant_id variant_id with
  | Except.error e => Except.error e
  | Except.ok _ =>
    Except.ok (LookupResult.new (fetched.toList.map SignificantVariantRow.to_api) t)

/-- `get_manhattan_uri`: default `plot_type` to `genome_manhattan` and
`ancestry` to `meta`; on a missing `phenotype_plots` row return a `NotFound`
error (HTTP 404), otherwise the stored GCS URI. -/
def get_manhattan_uri (analysis_id : String) (ancestry plot_type : Option String)
    (fetched : Option PlotRow) : Except AppError String :=
  let pt := plot_type.getD "genome_manhattan"
  let anc := ancestry.getD "meta"
  match fetched with
  | some plot => Except.ok plot.gcs_uri
  | none =>
    Except.error (AppError.notFound
      ("Manhattan plot not found for phenotype " ++ analysis_id ++
        " with plot_type " ++ pt ++ " and ancestry " ++ anc))

/-! ## Gene-exon annotation lookup (C10)

`get_annotations_by_gene` (`variants/annotations.rs`, lines 236–305), embedded
as a function of the gene-model lookup result and of the rows the exon-range
query returns.
-/

/-- Per-exon `xpos` range condition text built by the handler
(`variants/annotations.rs`, lines 261–266); the contig is the gene's `chrom`
with a `chr` prefix stripped, and the exon bounds are `i64`s cast to `u32`. -/
def exon_condition (contig : List Char) (e : Exon) : String :=
  "(xpos >= " ++ String.mk (intToChars (compute_xpos contig (u32cast e.start))) ++
    " AND xpos <= " ++ String.mk (intToChars (compute_xpos contig (u32cast e.stop))) ++ ")"

/-- `get_annotations_by_gene`: a missing gene model or a gene with no exons
short-circuits to a successful empty `LookupResult`; otherwise the annotation
rows fetched for the exon ranges are shaped into API objects. -/
def get_annotations_by_gene (geneOpt : Option GeneModel)
    (fetched : List VariantAnnotationRow) (t : ℚ) :
    Except AppError (LookupResult VariantAnnotationApi) :=
  match geneOpt with
  | none => Except.ok (LookupResult.new [] t)
  | some gene =>
    if gene.exons = [] then Except.ok (LookupResult.new [] t)
    else Except.ok (LookupResult.new (fetched.map VariantAnnotationRow.to_api) t)

/-! ## Peak-annotation folding (`src/phenotype/manhattan.rs`, C1)

`fetch_peak_annotations` issues the multi-CTE peak query (`ORDER BY
lg.peak_pvalue ASC, lg.distance_to_peak ASC`) and folds the flat row list into
`Peak` records client-side (lines 396–443).  The fold below is the loop over
`rows` with its `current_peak` option, verbatim.
-/

namespace Manhattan

/-- `PeakGeneRow` (`phenotype/manhattan.rs`, lines 66–77). -/
structure PeakGeneRow where
  contig : String
  peak_position : Int
  peak_pvalue : ℚ
  gene_symbol : String
  gene_id : String
  distance_kb : ℚ
  coding_variant_count : Nat
  burden_pvalue : Option ℚ
  burden_beta : Option ℚ
deriving DecidableEq

/-- `GeneInLocus` (`phenotype/manhattan.rs`, lines 80–90). -/
structure GeneInLocus where
  gene_symbol : String
  gene_id : String
  distance_kb : ℚ
  coding_variant_count : Nat
  burden_pvalue : Option ℚ
  burden_beta : Option ℚ
deriving DecidableEq

/-- `Peak` (`phenotype/manhattan.rs`, lines 93–99). -/
structure Peak where
  contig : String
  position : Int
  pvalue : ℚ
  genes : List GeneInLocus
deriving DecidableEq

/-- The `GeneInLocus` built from a row (both arms of the fold build it the
same way). -/
def rowGene (r : PeakGeneRow) : GeneInLocus :=
  { gene_symbol := r.gene_symbol
    gene_id := r.gene_id
    distance_kb := r.distance_kb
    coding_variant_count := r.coding_variant_count
    burden_pvalue := r.burden_pvalue
    burden_beta := r.burden_beta }

/-- The fresh `Peak` started from a row. -/
def rowPeak (r : PeakGeneRow) : Peak :=
  { contig := r.contig
    position := r.peak_position
    pvalue := r.peak_pvalue
    genes := [rowGene r] }

/-- Pushing a row's gene onto the current peak (`peak.genes.push(...)`). -/
def addGene (p : Peak) (r : PeakGeneRow) : Peak :=
  { p with genes := p.genes ++ [rowGene r] }

/-- The grouping key of a row: `(contig, peak_position)`. -/
def rowKey (r : PeakGeneRow) : String × Int := (r.contig, r.peak_position)

/-- The grouping key of a folded peak. -/
def peakKey (p : Peak) : String × Int := (p.contig, p.position)

/-- The row loop of `fetch_peak_annotations` (lines 398–436): `cur` is
`current_peak`, `acc` is `peaks`; a row matching the current peak's
`(contig, position)` appends its gene, otherwise the current peak is flushed
and a new one started; the final `current_peak` is flushed at the end. -/
def foldPeaksGo : Option Peak → List Peak → List PeakGeneRow → List Peak
  | cur, acc, [] => acc ++ cur.toList
  | some p, acc, r :: rs =>
    if p.contig = r.contig ∧ p.position = r.peak_position then
      foldPeaksGo (some (addGene p r)) acc rs
    else
      foldPeaksGo (some (rowPeak r)) (acc ++ [p]) rs
  | none, acc, r :: rs => foldPeaksGo (some (rowPeak r)) acc rs

/-- Client-side fold of the flat peak-annotation result into `Peak` records
(`fetch_peak_annotations`, lines 396–443). -/
def fold_peak_rows (rows : List PeakGeneRow) : List Peak :=
  foldPeaksGo none [] rows

/-- Helper for reasoning about the fold: the peaks produced once a current
peak `p` is open and all earlier peaks are flushed. -/
def absorb (p : Peak) : List PeakGeneRow → List Peak
  | [] => [p]
  | r :: rs =>
    if p.contig = r.contig ∧ p.position = r.peak_position then
      absorb (addGene p r) rs
    else
      p :: absorb (rowPeak r) rs

/-- Removal of adjacent duplicates, used to phrase «one peak per run of equal
keys» for the fold. -/
def dedupAdj {α : Type} [DecidableEq α] : List α → List α
  | [] => []
  | [a] => [a]
  | a :: b :: t => if a = b then dedupAdj (b :: t) else a :: dedupAdj (b :: t)

/-- The ordering the C5 query's `ORDER BY peak_pvalue ASC, distance_to_peak
ASC` guarantees on the returned rows (distance is reported through the
monotone `distance_kb` projection the row carries). -/
def sortedByPvalueDistance (rows : List PeakGeneRow) : Prop :=
  rows.Pairwise (fun a b =>
    a.peak_pvalue < b.peak_pvalue ∨
      (a.peak_pvalue = b.peak_pvalue ∧ a.distance_kb ≤ b.distance_kb))

/-- In the query result a peak's p-value is a function of its `(contig, bin)`
group (the `peaks` CTE computes one `peak_pvalue` per group), so rows with
equal keys carry equal p-values. -/
def keyDeterminesPvalue (rows : List PeakGeneRow) : Prop :=
  ∀ a ∈ rows, ∀ b ∈ rows, rowKey a = rowKey b → a.peak_pvalue = b.peak_pvalue

/-- Concrete row sequence: two peaks on `chr1` share the p-value `1`, and the
tie-broken ordering by distance interleaves their gene rows. -/
def tiedRows : List PeakGeneRow :=
  [{ contig := "chr1", peak_position := 100, peak_pvalue := 1, gene_symbol := "G1",
     gene_id := "g1", distance_kb := 1, coding_variant_count := 0,
     burden_pvalue := none, burden_beta := none },
   { contig := "chr1", peak_position := 200, peak_pvalue := 1, gene_symbol := "G2",
     gene_id := "g2", distance_kb := 2, coding_variant_count := 0,
     burden_pvalue := none, burden_beta := none },
   { contig := "chr1", peak_position := 100, peak_pvalue := 1, gene_symbol := "G3",
     gene_id := "g3", distance_kb := 3, coding_variant_count := 0,
     burden_pvalue := none, burden_beta := none }]

/-- The same rows with equal keys contiguous (the non-interleaved order). -/
def groupedRows : List PeakGeneRow :=
  [{ contig := "chr1", peak_position := 100, peak_pvalue := 1, gene_symbol := "G1",
     gene_id := "g1", distance_kb := 1, coding_variant_count := 0,
     burden_pvalue := none, burden_beta := none },
   { contig := "chr1", peak_position := 100, peak_pvalue := 1, gene_symbol := "G3",
     gene_id := "g3", distance_kb := 3, coding_variant_count := 0,
     burden_pvalue := none, burden_beta := none },
   { contig := "chr1", peak_position := 200, peak_pvalue := 1, gene_symbol := "G2",
     gene_id := "g2", distance_kb := 2, coding_variant_count := 0,
     burden_pvalue := none, burden_beta := none }]

end Manhattan

/-! ## Unified-overview merge (`src/phenotype/overview.rs`, C3)

`get_phenotype_overview` (lines 187–364) merges genome peaks, exome peaks and
significant burden rows into a `HashMap<String, UnifiedLocus>` keyed by
`locus_key` and then sorts the values.  The peak/gene structures it imports
from the `manhattan` module carry `lof_count`/`missense_count`/`burden_results`
fields; that revision of the module is not present under `src/`, so those
payload types are modelled from their uses in `overview.rs`.  The two hash
maps are embedded as association lists in insertion order (the claim's
properties do not depend on iteration order).
-/

namespace Overview

/-- Burden-test payload attached to a gene (used at `overview.rs` lines
289–297; the source field named after the variant class is called `annot`
here). -/
structure BurdenResult where
  annot : String
  pvalue : Option ℚ
  pvalue_burden : Option ℚ
  pvalue_skat : Option ℚ
deriving DecidableEq

/-- Gene near a peak, as the overview revision of `GeneInLocus` is used in
`overview.rs` (lines 100–119 and 147–179). -/
structure GeneInLocus where
  gene_symbol : String
  gene_id : String
  distance_kb : ℚ
  lof_count : Option Nat
  missense_count : Option Nat
  burden_results : List BurdenResult
deriving DecidableEq

/-- GWAS peak, as consumed by `overview.rs`. -/
structure Peak where
  contig : String
  position : Int
  pvalue : ℚ
  genes : List GeneInLocus
deriving DecidableEq

/-- `UnifiedCodingHits` (`overview.rs`, lines 28–31). -/
structure UnifiedCodingHits where
  lof : Nat
  missense : Nat
deriving DecidableEq

/-- `UnifiedGene` (`overview.rs`, lines 35–48). -/
structure UnifiedGene where
  gene_symbol : String
  gene_id : String
  distance_kb : ℚ
  genome_coding_hits : Option UnifiedCodingHits
  exome_coding_hits : Option UnifiedCodingHits
  burden_results : List BurdenResult
deriving DecidableEq

/-- `UnifiedLocus` (`overview.rs`, lines 52–63). -/
structure UnifiedLocus where
  contig : String
  position : Int
  pvalue_genome : Option ℚ
  pvalue_exome : Option ℚ
  genes : List UnifiedGene
deriving DecidableEq

/-- `SignificantBurdenRow` (`overview.rs`, lines 78–87; the variant-class
field is called `annot` here). -/
structure SignificantBurdenRow where
  gene_id : String
  gene_symbol : String
  contig : String
  gene_start_position : Int
  annot : String
  pvalue : Option ℚ
  pvalue_burden : Option ℚ
  pvalue_skat : Option ℚ
deriving DecidableEq

/-- `locus_key` (`overview.rs`, lines 90–92):
`format!("{}-{}", contig, position / 1_000_000)` with `i32` division
(truncation toward zero). -/
def locus_key (contig : String) (position : Int) : String :=
  contig ++ "-" ++ String.mk (intToChars (Int.tdiv position 1000000))

/-- Coding-hit option built from a gene's counters (`overview.rs`, lines
100–107 and 147–154): present only when a counter is positive. -/
def codingHits (g : GeneInLocus) : Option UnifiedCodingHits :=
  if 0 < (g.lof_count).getD 0 ∨ 0 < (g.missense_count).getD 0 then
    some { lof := (g.lof_count).getD 0, missense := (g.missense_count).getD 0 }
  else none

/-- `peak_to_unified_locus` (`overview.rs`, lines 95–139). -/
def peak_to_unified_locus (peak : Peak) (source : String) : UnifiedLocus :=
  { contig := peak.contig
    position := peak.position
    pvalue_genome := if source = "genome" then some peak.pvalue else none
    pvalue_exome := if source = "exome" then some peak.pvalue else none
    genes := peak.genes.map (fun g =>
      { gene_symbol := g.gene_symbol
        gene_id := g.gene_id
        distance_kb := g.distance_kb
        genome_coding_hits := if source = "genome" then codingHits g else none
        exome_coding_hits := if source = "exome" then codingHits g else none
        burden_results := g.burden_results }) }

/-- Update of the first list element satisfying a predicate (Rust
`iter_mut().find(...)` followed by a mutation). -/
def updateFirst {α : Type} (p : α → Bool) (f : α → α) : List α → List α
  | [] => []
  | a :: t => if p a then f a :: t else a :: updateFirst p f t

/-- Appending of incoming burden results that introduce a new variant-class
tag (`overview.rs`, lines 165–169 and 303–307). -/
def mergeBurdens (existing incoming : List BurdenResult) : List BurdenResult :=
  incoming.foldl
    (fun acc br =>
      if acc.any (fun b => b.annot = br.annot) then acc else acc ++ [br])
    existing

/-- `merge_gene` (`overview.rs`, lines 142–181). -/
def merge_gene (genes : List UnifiedGene) (g : GeneInLocus) (source : String) :
    List UnifiedGene :=
  let hits := codingHits g
  if genes.any (fun e => e.gene_id = g.gene_id) then
    updateFirst (fun e => e.gene_id = g.gene_id)
      (fun e =>
        let e :=
          if source = "genome" ∧ hits.isSome then { e with genome_coding_hits := hits }
          else if source = "exome" ∧ hits.isSome then { e with exome_coding_hits := hits }
          else e
        { e with burden_results := mergeBurdens e.burden_results g.burden_results })
      genes
  else
    genes ++ [{ gene_symbol := g.gene_symbol
                gene_id := g.gene_id
                distance_kb := g.distance_kb
                genome_coding_hits := if source = "genome" then hits else none
                exome_coding_hits := if source = "exome" then hits else none
                burden_results := g.burden_results }]

/-- The loci map: `HashMap<String, UnifiedLocus>` as an association list in
insertion order. -/
abbrev LociMap : Type := List (String × UnifiedLocus)

/-- `HashMap::insert`: replace the value under an existing key, otherwise add
the binding. -/
def mapInsert (k : String) (v : UnifiedLocus) : LociMap → LociMap
  | [] => [(k, v)]
  | e :: t => if e.1 = k then (k, v) :: t else e :: mapInsert k v t

/-- `HashMap::get_mut` hit test. -/
def containsKey (k : String) (m : LociMap) : Bool :=
  m.any (fun e => e.1 = k)

/-- In-place mutation of the value under a key (`get_mut` + assignment). -/
def mapUpdate (k : String) (f : UnifiedLocus → UnifiedLocus) : LociMap → LociMap
  | [] => []
  | e :: t => if e.1 = k then (e.1, f e.2) :: t else e :: mapUpdate k f t

/-- Update of an existing locus's `pvalue_exome` when an exome peak hits its
key (`overview.rs`, lines 261–266): set it when absent or when the peak's
p-value is lower. -/
def bumpExome (peak : Peak) (l : UnifiedLocus) : UnifiedLocus :=
  match l.pvalue_exome with
  | none => { l with pvalue_exome := some peak.pvalue }
  | some p =>
    if peak.pvalue < p then { l with pvalue_exome := some peak.pvalue } else l

/-- Mutation applied to an existing locus when an exome peak hits its key
(`overview.rs`, lines 260–270): lower (or set) `pvalue_exome`, then merge the
peak's genes. -/
def applyExomePeak (peak : Peak) (l : UnifiedLocus) : UnifiedLocus :=
  { bumpExome peak l with
    genes := peak.genes.foldl (fun gs g => merge_gene gs g "exome")
      (bumpExome peak l).genes }

/-- Exome-peak step of the merge (`overview.rs`, lines 258–275). -/
def mergeExomePeak (m : LociMap) (peak : Peak) : LociMap :=
  if containsKey (locus_key peak.contig peak.position) m then
    mapUpdate (locus_key peak.contig peak.position) (applyExomePeak peak) m
  else
    mapInsert (locus_key peak.contig peak.position)
      (peak_to_unified_locus peak "exome") m

/-- Grouping of burden rows by `gene_id` (`overview.rs`, lines 279–282):
`HashMap<String, Vec<&SignificantBurdenRow>>` via `entry(..).or_default()
.push(..)`, embedded as an association list in first-encounter order. -/
def pushRow (m : List (String × List SignificantBurdenRow))
    (r : SignificantBurdenRow) : List (String × List SignificantBurdenRow) :=
  if m.any (fun e => e.1 = r.gene_id) then
    m.map (fun e => if e.1 = r.gene_id then (e.1, e.2 ++ [r]) else e)
  else m ++ [(r.gene_id, [r])]

/-- Burden rows grouped by gene id. -/
def groupByGeneId (rows : List SignificantBurdenRow) :
    List (String × List SignificantBurdenRow) :=
  rows.foldl pushRow []

/-- Burden payload of a grouped gene (`overview.rs`, lines 289–297). -/
def burdenResultsOf (rows : List SignificantBurdenRow) : List BurdenResult :=
  rows.map (fun r =>
    { annot := r.annot
      pvalue := r.pvalue
      pvalue_burden := r.pvalue_burden
      pvalue_skat := r.pvalue_skat })

/-- Burden-group step of the merge (`overview.rs`, lines 284–339): `first` is
`rows[0]` (groups are built nonempty; the empty case is unreachable and kept
as a no-op for totality). -/
def mergeBurdenGroup (m : LociMap) (g : String × List SignificantBurdenRow) : LociMap :=
  match g.2 with
  | [] => m
  | first :: _ =>
    if containsKey (locus_key first.contig first.gene_start_position) m then
      mapUpdate (locus_key first.contig first.gene_start_position)
        (fun l =>
          if l.genes.any (fun ug => ug.gene_id = g.1) then
            { l with genes :=
                (updateFirst (fun ug => ug.gene_id = g.1)
                  (fun ug => { ug with burden_results :=
                    (mergeBurdens ug.burden_results (burdenResultsOf g.2)) })
                  l.genes) }
          else
            { l with genes := l.genes ++
                [{ gene_symbol := first.gene_symbol
                   gene_id := g.1
                   distance_kb := 0
                   genome_coding_hits := none
                   exome_coding_hits := none
                   burden_results := burdenResultsOf g.2 }] })
        m
    else
      mapInsert (locus_key first.contig first.gene_start_position)
        { contig := first.contig
          position := first.gene_start_position
          pvalue_genome := none
          pvalue_exome := none
          genes := [{ gene_symbol := first.gene_symbol
                      gene_id := g.1
                      distance_kb := 0
                      genome_coding_hits := none
                      exome_coding_hits := none
                      burden_results := burdenResultsOf g.2 }] }
        m

/-- The loci map after the three merge passes of `get_phenotype_overview`
(lines 249–339): seed with genome peaks, merge exome peaks, merge burden
groups. -/
def build_loci_map (genome_peaks exome_peaks : List Peak)
    (burden_rows : List SignificantBurdenRow) : LociMap :=
  (groupByGeneId burden_rows).foldl mergeBurdenGroup
    (exome_peaks.foldl mergeExomePeak
      (genome_peaks.foldl
        (fun m p =>
          mapInsert (locus_key p.contig p.position) (peak_to_unified_locus p "genome") m)
        []))

/-- The value `f64::MAX` takes in the final sort (`overview.rs`, lines
343–346), exactly: `2^1024 − 2^971`. -/
def f64Max : ℚ := 2 ^ 1024 - 2 ^ 971

/-- Sort key of a locus: `min(pvalue_genome ?? MAX, pvalue_exome ?? MAX)`. -/
def bestPvalue (l : UnifiedLocus) : ℚ :=
  min ((l.pvalue_genome).getD f64Max) ((l.pvalue_exome).getD f64Max)

/-- `unified_loci` of `get_phenotype_overview` (lines 342–347): map values
sorted ascending by best p-value (a stable sort; any sort is a permutation of
the values, which is all the stated properties use). -/
def unified_loci (genome_peaks exome_peaks : List Peak)
    (burden_rows : List SignificantBurdenRow) : List UnifiedLocus :=
  ((build_loci_map genome_peaks exome_peaks burden_rows).map (fun e => e.2)).mergeSort
    (fun a b => bestPvalue a ≤ bestPvalue b)

/-- The 1 Mb bin key of a locus named by the claim:
`(contig, position / 1_000_000)`. -/
def locusBin (l : UnifiedLocus) : String × Int :=
  (l.contig, Int.tdiv l.position 1000000)

/-- The 1 Mb bin key of an input peak. -/
def peakBin (p : Peak) : String × Int :=
  (p.contig, Int.tdiv p.position 1000000)

/-- The 1 Mb bin key of an input burden row (binned gene start). -/
def burdenBin (r : SignificantBurdenRow) : String × Int :=
  (r.contig, Int.tdiv r.gene_start_position 1000000)

/-- A locus whose `(contig, position)` pair is taken verbatim from one of the
three input streams. -/
def locusFromInputs (gps eps : List Peak) (brs : List SignificantBurdenRow)
    (l : UnifiedLocus) : Prop :=
  (∃ p ∈ gps, l.contig = p.contig ∧ l.position = p.position) ∨
    (∃ p ∈ eps, l.contig = p.contig ∧ l.position = p.position) ∨
    (∃ r ∈ brs, l.contig = r.contig ∧ l.position = r.gene_start_position)

/-- Invariant of the merge's loci map: keys are distinct, each entry's key is
the `locus_key` of its locus, and each locus's coordinates come from an
input. -/
def mapInv (gps eps : List Peak) (brs : List SignificantBurdenRow)
    (m : LociMap) : Prop :=
  (m.map Prod.fst).Nodup ∧
    ∀ e ∈ m, e.1 = locus_key (e.2).contig (e.2).position ∧
      locusFromInputs gps eps brs e.2

end Overview

/-! ## Sequencing-type binding in the composer (`src/variants/associations.rs`, C6) -/

/-- Singular normalization of a sequencing type (`associations.rs`, lines
191–195): `ends_with('s')` then drop the final byte. -/
def normalize_seq_type (s : String) : String :=
  if s.toList.getLast? = some 's' then String.mk s.toList.dropLast else s

/-- The sequencing-type value `get_variants_by_gene` binds against
`loci_variants` (`associations.rs`, lines 137–139 and 191–195, bound at line
238): the caller value or the default `"exomes"`, normalized to singular. -/
def get_variants_by_gene_seq_bound (sequencing_type_param : Option String) : String :=
  normalize_seq_type (sequencing_type_param.getD "exomes")

/-- The sequencing-type value `get_manhattan_top` binds against
`loci_variants` (`associations.rs`, line 275, bound at line 291): the caller
value or the default `"genomes"`, bound verbatim. -/
def get_manhattan_top_seq_bound (sequencing_type_param : Option String) : String :=
  sequencing_type_param.getD "genomes"

/-! ## SQL statement splitting in the ingestion orchestrator
(`src/cli/ingest.rs`, C9) -/

/-- One line of a trimmed SQL chunk is skippable when, after trimming, it is
blank or a `--` comment (`ingest.rs`, lines 337–340). -/
def blankOrComment (line : List Char) : Bool :=
  rustTrim line = [] ∨ startsWithDashDash (rustTrim line)

/-- `split_sql_statements` (`ingest.rs`, lines 330–344): split the SQL text on
`;`, trim each chunk, and keep the chunks that are nonempty and not composed
solely of blank or comment lines. -/
def split_sql_statements (sql : String) : List String :=
  (((splitOnChar ';' sql.toList).map rustTrim).filter
      (fun s => ¬ s = [] ∧ ¬ (rustLines s).all blankOrComment)).map String.mk

/-! ## Analysis-asset hash id (`src/models.rs`, C7)

`AnalysisAsset::hash_id` feeds
`format!("phenotype_{}_{:?}_{:?}", analysis_id, ancestry_group,
sequencing_type)` through the standard library's `DefaultHasher` — SipHash-1-3
with both keys zero, where hashing a string writes its UTF-8 bytes followed by
a `0xff` separator byte — and prints the 64-bit result with `{:012x}`
(lowercase hex, zero-padded to a *minimum* of 12 digits).  SipHash-1-3 is
embedded below over `Nat` with explicit reduction modulo `2^64`.
-/

namespace Sip

/-- Reduction modulo `2^64`. -/
def m64 (n : Nat) : Nat := n % 2 ^ 64

/-- Wrapping 64-bit addition. -/
def add64 (a b : Nat) : Nat := m64 (a + b)

/-- 64-bit xor (inputs already below `2^64`; reduced for a self-contained
bound). -/
def xor64 (a b : Nat) : Nat := m64 (a ^^^ b)

/-- 64-bit rotate left by `b` bits. -/
def rotl64 (x b : Nat) : Nat :=
  m64 ((x % 2 ^ (64 - b)) * 2 ^ b + x / 2 ^ (64 - b))

/-- SipHash internal state. -/
structure State where
  v0 : Nat
  v1 : Nat
  v2 : Nat
  v3 : Nat

/-- One SipRound. -/
def round (s : State) : State :=
  let v0 := add64 s.v0 s.v1
  let v1 := rotl64 s.v1 13
  let v1 := xor64 v1 v0
  let v0 := rotl64 v0 32
  let v2 := add64 s.v2 s.v3
  let v3 := rotl64 s.v3 16
  let v3 := xor64 v3 v2
  let v0 := add64 v0 v3
  let v3 := rotl64 v3 21
  let v3 := xor64 v3 v0
  let v2 := add64 v2 v1
  let v1 := rotl64 v1 17
  let v1 := xor64 v1 v2
  let v2 := rotl64 v2 32
  { v0 := v0, v1 := v1, v2 := v2, v3 := v3 }

/-- Iterated SipRounds. -/
def rounds : Nat → State → State
  | 0, s => s
  | n + 1, s => rounds n (round s)

/-- Compression of one 64-bit message word: `v3 ^= m`, `c` rounds,
`v0 ^= m`. -/
def compress (c : Nat) (s : State) (m : Nat) : State :=
  let s := { s with v3 := xor64 s.v3 m }
  let s := rounds c s
  { s with v0 := xor64 s.v0 m }

/-- Little-endian 64-bit word from up to eight bytes. -/
def leWord (bs : List Nat) : Nat :=
  bs.foldr (fun b acc => acc * 256 + b) 0

/-- Compression of all full 8-byte blocks. -/
def blocks (c : Nat) (s : State) : List Nat → State
  | b0 :: b1 :: b2 :: b3 :: b4 :: b5 :: b6 :: b7 :: rest =>
    blocks c (compress c s (leWord [b0, b1, b2, b3, b4, b5, b6, b7])) rest
  | _ => s

/-- The trailing bytes (fewer than eight) left after the full blocks. -/
def tailBytes : List Nat → List Nat
  | _ :: _ :: _ :: _ :: _ :: _ :: _ :: _ :: rest => tailBytes rest
  | bs => bs

/-- SipHash with `c` compression rounds and `d` finalization rounds over a
byte message, keys `k0`/`k1`. -/
def sipHash (c d : Nat) (k0 k1 : Nat) (msg : List Nat) : Nat :=
  let s : State :=
    { v0 := xor64 k0 0x736f6d6570736575
      v1 := xor64 k1 0x646f72616e646f6d
      v2 := xor64 k0 0x6c7967656e657261
      v3 := xor64 k1 0x7465646279746573 }
  let s := blocks c s msg
  let b := add64 ((msg.length % 256) * 2 ^ 56) (leWord (tailBytes msg))
  let s := compress c s b
  let s := { s with v2 := xor64 s.v2 0xff }
  let s := rounds d s
  xor64 (xor64 (xor64 s.v0 s.v1) s.v2) s.v3

/-- `DefaultHasher`: SipHash-1-3 with zero keys. -/
def sipHash13 (msg : List Nat) : Nat := sipHash 1 3 0 0 msg

end Sip

/-- UTF-8 bytes of the ASCII strings hashed here. -/
def strBytes (s : String) : List Nat := s.toList.map Char.toNat

/-- `AncestryGroup` (`models.rs`, lines 102–110). -/
inductive AncestryGroup where
  | afr | amr | eas | eur | mid | sas | meta
deriving DecidableEq

/-- Rust `{:?}` (derived `Debug`) rendering of an ancestry group. -/
def AncestryGroup.debugStr : AncestryGroup → String
  | .afr => "Afr"
  | .amr => "Amr"
  | .eas => "Eas"
  | .eur => "Eur"
  | .mid => "Mid"
  | .sas => "Sas"
  | .meta => "Meta"

/-- `SequencingType` (`models.rs`, lines 183–186). -/
inductive SequencingType where
  | exomes | genomes
deriving DecidableEq

/-- Rust `{:?}` rendering of a sequencing type. -/
def SequencingType.debugStr : SequencingType → String
  | .exomes => "Exomes"
  | .genomes => "Genomes"

/-- Rust `{:?}` rendering of `Option<SequencingType>`. -/
def optionSeqDebugStr : Option SequencingType → String
  | none => "None"
  | some t => "Some(" ++ SequencingType.debugStr t ++ ")"

/-- `AnalysisAssetType` (`models.rs`, lines 190–202). -/
inductive AnalysisAssetType where
  | variant | variantDs | variantExpP | gene | geneExpP
deriving DecidableEq

/-- `AnalysisAsset` (`models.rs`, lines 251–263). -/
structure AnalysisAsset where
  ancestry_group : AncestryGroup
  analysis_id : String
  uri : String
  asset_type : AnalysisAssetType
  sequencing_type : Option SequencingType
deriving DecidableEq

/-- Lowercase hex digit character. -/
def hexDigitChar (n : Nat) : Char :=
  if n < 10 then Char.ofNat (48 + n) else Char.ofNat (87 + n)

/-- Lowercase hex digits, most significant first (empty for zero); the fuel
argument bounds the digit count and is ample for 64-bit values. -/
def hexCharsAux : Nat → Nat → List Char
  | 0, _ => []
  | fuel + 1, n =>
    if n = 0 then [] else hexCharsAux fuel (n / 16) ++ [hexDigitChar (n % 16)]

/-- Lowercase hex digits of `n`, most significant first (empty for zero). -/
def hexChars (n : Nat) : List Char := hexCharsAux 64 n

/-- Rust `format!("{:012x}", n)`: lowercase hex, left-padded with zeros to a
minimum width of 12 — wider values keep all their digits. -/
def hexPad12 (n : Nat) : String :=
  let ds := if n = 0 then ['0'] else hexChars n
  String.mk (List.replicate (12 - ds.length) '0' ++ ds)

/-- The key string hashed by `AnalysisAsset::hash_id`:
`format!("phenotype_{}_{:?}_{:?}", analysis_id, ancestry_group,
sequencing_type)`. -/
def AnalysisAsset.hashKey (a : AnalysisAsset) : String :=
  "phenotype_" ++ a.analysis_id ++ "_" ++ AncestryGroup.debugStr a.ancestry_group ++
    "_" ++ optionSeqDebugStr a.sequencing_type

/-- `AnalysisAsset::hash_id` (`models.rs`, lines 266–279): `DefaultHasher`
over the key string (its bytes plus the `0xff` string terminator byte),
printed with `{:012x}`. -/
def AnalysisAsset.hash_id (a : AnalysisAsset) : String :=
  hexPad12 (Sip.sipHash13 (strBytes (AnalysisAsset.hashKey a) ++ [0xff]))

/-! # Theorems -/

/-! ## Utility lemmas on characters, digits and splitting -/

theorem toNat_charOfNat (n : Nat) (h : n < 55296) : (Char.ofNat n).toNat = n := by
  have hv : n.isValidChar := Or.inl h
  simp [Char.ofNat, hv, Char.ofNatAux, Char.toNat, UInt32.toNat, BitVec.toNat_ofNatLt]

theorem splitOnChar_of_not_mem (sep : Char) (l : List Char) (h : sep ∉ l) :
    splitOnChar sep l = [l] := by
  induction l with
  | nil => rfl
  | cons c rest ih =>
    have hc : ¬ c = sep := fun hcs => h (hcs ▸ List.mem_cons_self c rest)
    have hr : sep ∉ rest := fun hm => h (List.mem_cons_of_mem c hm)
    simp [splitOnChar, hc, ih hr]

theorem splitOnChar_append (sep : Char) (xs ys : List Char) (h : sep ∉ xs) :
    splitOnChar sep (xs ++ sep :: ys) = xs :: splitOnChar sep ys := by
  induction xs with
  | nil => simp [splitOnChar]
  | cons c rest ih =>
    have hc : ¬ c = sep := fun hcs => h (hcs ▸ List.mem_cons_self c rest)
    have hr : sep ∉ rest := fun hm => h (List.mem_cons_of_mem c hm)
    have heq : splitOnChar sep (rest.append (sep :: ys)) =
        rest :: splitOnChar sep ys := ih hr
    simp only [List.cons_append, splitOnChar, hc, if_false]
    rw [heq]

theorem natToChars_toNat_bounds (n : Nat) :
    ∀ c ∈ natToChars n, 48 ≤ c.toNat ∧ c.toNat ≤ 57 := by
  intro c hc
  unfold natToChars at hc
  split at hc
  · rw [List.mem_singleton] at hc
    subst hc; decide
  · rcases List.mem_map.mp hc with ⟨d, hd, hcd⟩
    have hd10 : d < 10 := Nat.digits_lt_base (by norm_num) (List.mem_reverse.mp hd)
    have : (Char.ofNat (48 + d)).toNat = 48 + d := toNat_charOfNat _ (by omega)
    subst hcd
    omega

theorem natToChars_ne_nil (n : Nat) : natToChars n ≠ [] := by
  unfold natToChars
  split
  · simp
  · next h =>
    have h10 : Nat.digits 10 n ≠ [] := Nat.digits_ne_nil_iff_ne_zero.mpr h
    simp [h10]

theorem foldlDigits (L : List Nat) (h : ∀ d ∈ L, d < 10) :
    (L.reverse.map (fun d => Char.ofNat (48 + d))).foldl
      (fun a c => 10 * a + (c.toNat - 48)) 0 = Nat.ofDigits 10 L := by
  induction L with
  | nil => simp [Nat.ofDigits_nil]
  | cons d L ih =>
    have hd : d < 10 := h d (List.mem_cons_self d L)
    have hL : ∀ x ∈ L, x < 10 := fun x hx => h x (List.mem_cons_of_mem d hx)
    have hchar : (Char.ofNat (48 + d)).toNat = 48 + d := toNat_charOfNat _ (by omega)
    simp only [List.reverse_cons, List.map_append, List.foldl_append, ih hL,
      List.map_cons, List.map_nil, List.foldl_cons, List.foldl_nil, hchar,
      Nat.ofDigits_cons]
    omega

theorem digitsToNat?_natToChars (n : Nat) : digitsToNat? (natToChars n) = some n := by
  by_cases h0 : n = 0
  · subst h0; decide
  · have hne : natToChars n ≠ [] := natToChars_ne_nil n
    have hdig : (natToChars n).all isDigitChar = true := by
      rw [List.all_eq_true]
      intro c hc
      have hb := natToChars_toNat_bounds n c hc
      simp [isDigitChar]
      omega
    unfold digitsToNat?
    rw [if_neg hne, if_pos hdig]
    unfold natToChars
    rw [if_neg h0]
    rw [foldlDigits _ (fun d hd => Nat.digits_lt_base (by norm_num) hd)]
    rw [Nat.ofDigits_digits]

theorem natToChars_head_digit (n : Nat) :
    ∃ c rest, natToChars n = c :: rest ∧ 48 ≤ c.toNat ∧ c.toNat ≤ 57 := by
  rcases hl : natToChars n with _ | ⟨c, rest⟩
  · exact absurd hl (natToChars_ne_nil n)
  · exact ⟨c, rest, rfl, natToChars_toNat_bounds n c (hl ▸ List.mem_cons_self c rest)⟩

theorem stripPlus_of_ne (c : Char) (rest : List Char) (h : c ≠ '+') :
    stripPlus (c :: rest) = c :: rest := by
  unfold stripPlus
  split
  · next heq => exact absurd (List.head_eq_of_cons_eq heq) h
  · rfl

theorem parseU32_natToChars (n : Nat) (h : n < 2 ^ 32) :
    parseU32 (natToChars n) = some n := by
  obtain ⟨c, rest, hl, hc1, hc2⟩ := natToChars_head_digit n
  have hplus : c ≠ '+' := by
    intro hc; subst hc; revert hc1; decide
  unfold parseU32
  rw [hl, stripPlus_of_ne c rest hplus, ← hl, digitsToNat?_natToChars]
  simp only []
  rw [if_pos (by omega)]

theorem not_mem_natToChars_of_toNat_out (x : Char) (n : Nat)
    (h : x.toNat < 48 ∨ 57 < x.toNat) : x ∉ natToChars n := by
  intro hm
  have := natToChars_toNat_bounds n x hm
  omega

/-! ## Coordinate codec lemmas -/

theorem stripChr_chars (l : List Char) :
    ∀ c ∈ l, c = 'c' ∨ c = 'h' ∨ c = 'r' ∨ c ∈ stripChr l := by
  induction l using stripChr.induct with
  | case1 rest ih =>
    intro c hc
    rw [List.mem_cons, List.mem_cons, List.mem_cons] at hc
    rcases hc with hc | hc | hc | hc
    · exact Or.inl hc
    · exact Or.inr (Or.inl hc)
    · exact Or.inr (Or.inr (Or.inl hc))
    · rcases ih c hc with h | h | h | h
      · exact Or.inl h
      · exact Or.inr (Or.inl h)
      · exact Or.inr (Or.inr (Or.inl h))
      · refine Or.inr (Or.inr (Or.inr ?_))
        simpa only [stripChr] using h
  | case2 l hne =>
    intro c hc
    exact Or.inr (Or.inr (Or.inr (by rwa [stripChr.eq_2 l hne])))

theorem rustUpper_eq_digit (c d : Char) (hc : rustUpper c = d)
    (hd : 48 ≤ d.toNat ∧ d.toNat ≤ 57) : c = d := by
  unfold rustUpper at hc
  split at hc
  · next h =>
    have ht : (Char.ofNat (c.toNat - 32)).toNat = c.toNat - 32 :=
      toNat_charOfNat _ (by omega)
    rw [hc] at ht
    exfalso
    omega
  · exact hc

theorem map_rustUpper_digits (n u : List Char) (h : n.map rustUpper = u)
    (hu : ∀ c ∈ u, 48 ≤ c.toNat ∧ c.toNat ≤ 57) : n = u := by
  induction n generalizing u with
  | nil => simpa using h.symm
  | cons c n ih =>
    rcases u with _ | ⟨d, u⟩
    · simp at h
    · simp only [List.map_cons, List.cons.injEq] at h
      have hcd : c = d :=
        rustUpper_eq_digit c d h.1 (hu d (List.mem_cons_self d u))
      have := ih u h.2 (fun x hx => hu x (List.mem_cons_of_mem d hx))
      rw [hcd, this]

theorem contigNum_valid (contig : List Char)
    (h : normalizeContig contig ∈ validContigForms) :
    1 ≤ contigNum contig ∧ contigNum contig ≤ 25 := by
  have h' : (stripChr contig).map rustUpper ∈ validContigForms := h
  simp only [validContigForms, List.mem_cons, List.not_mem_nil, or_false] at h'
  unfold contigNum
  rcases h' with h' | h' | h' | h' | h' | h' | h' | h' | h' | h' | h' | h' | h' |
    h' | h' | h' | h' | h' | h' | h' | h' | h' | h' | h' | h' | h' <;>
    first
    | (rw [map_rustUpper_digits _ _ h' (by decide)]; decide)
    | ((rw [h']; norm_num) <;> decide)

theorem wrap64_eq (v : Int) (h1 : -(2 ^ 63) ≤ v) (h2 : v < 2 ^ 63) :
    wrap64 v = v := by
  unfold wrap64
  omega

theorem compute_xpos_valid (contig : List Char) (pos : Nat)
    (hc : normalizeContig contig ∈ validContigForms) (hp : pos < 2 ^ 32) :
    compute_xpos contig pos = contigNum contig * 1000000000 + pos ∧
      0 < compute_xpos contig pos := by
  obtain ⟨hlo, hhi⟩ := contigNum_valid contig hc
  unfold compute_xpos
  rw [if_neg (by omega)]
  rw [wrap64_eq _ (by omega) (by omega)]
  exact ⟨rfl, by omega⟩

/-! ## C4: encoding of unknown contigs -/

/-- C4 (counterexample): the contig `"30"` normalizes to `"30"`, which is not
in the closed set `{1..22, X, Y, M, MT}`, yet `compute_xpos "30" 1` returns
`30·10⁹ + 1`, not `0` — `parse::<i64>().unwrap_or(0)` accepts any in-range
integer, so the claim as stated is false. -/
theorem c4_counterexample :
    normalizeContig "30".toList ∉ validContigForms ∧
      compute_xpos "30".toList 1 = 30000000001 := by
  constructor
  · decide
  · decide

/-- C4 (amended): `compute_xpos` returns `0` for a contig exactly when its
stripped form is not `X`/`Y`/`M`/`MT` (after uppercasing) and fails to parse
as a signed 64-bit integer or parses to `0`; in particular every contig whose
normalized form is outside the closed set *and* outside the integer-parsing
fallback encodes to `0`. -/
theorem compute_xpos_unknown_contig (contig : List Char) (pos : Nat)
    (hform : normalizeContig contig ∉ validContigForms)
    (hparse : parseI64 (stripChr contig) = none ∨
      parseI64 (stripChr contig) = some 0) :
    compute_xpos contig pos = 0 := by
  have hx : ¬ (stripChr contig).map rustUpper = ['X'] := fun hu =>
    hform (by unfold normalizeContig; rw [hu]; decide)
  have hy : ¬ (stripChr contig).map rustUpper = ['Y'] := fun hu =>
    hform (by unfold normalizeContig; rw [hu]; decide)
  have hm : ¬ ((stripChr contig).map rustUpper = ['M'] ∨
      (stripChr contig).map rustUpper = ['M', 'T']) := by
    rintro (hu | hu) <;> exact hform (by unfold normalizeContig; rw [hu]; decide)
  have hcn : contigNum contig = 0 := by
    unfold contigNum
    rw [if_neg hx, if_neg hy, if_neg hm]
    rcases hparse with hp | hp <;> rw [hp] <;> rfl
  unfold compute_xpos
  rw [hcn]
  rfl

/-- C4 (witness): the amended theorem applied to the concrete contig `"QQ"`
(unknown and unparsable) at position `5`. -/
theorem compute_xpos_unknown_contig_witness :
    compute_xpos "QQ".toList 5 = 0 :=
  compute_xpos_unknown_contig "QQ".toList 5 (by decide) (Or.inl (by decide))

/-! ## C5: `parse_variant_id ∘ make_variant_id = id` -/

theorem validContig_no_dash (contig : String) (h : validContig contig) :
    '-' ∉ contig.toList := by
  intro hm
  rcases stripChr_chars contig.toList '-' hm with h1 | h1 | h1 | h1
  · exact absurd h1 (by decide)
  · exact absurd h1 (by decide)
  · exact absurd h1 (by decide)
  · have hforms : ∀ f ∈ validContigForms, '-' ∉ f := by decide
    have hmem : '-' ∈ normalizeContig contig.toList := by
      unfold normalizeContig
      exact List.mem_map.mpr ⟨'-', h1, by decide⟩
    exact hforms _ h hmem

theorem intToChars_natCast (p : Nat) : intToChars (p : Int) = natToChars p := by
  unfold intToChars
  rw [if_neg (by omega)]
  simp

theorem dash_not_mem_natToChars (n : Nat) : '-' ∉ natToChars n :=
  not_mem_natToChars_of_toNat_out '-' n (Or.inl (by decide))

theorem splitOnChar_quad (sep : Char) (a b c d : List Char)
    (hA : sep ∉ a) (hB : sep ∉ b) (hC : sep ∉ c) (hD : sep ∉ d) :
    splitOnChar sep (a ++ sep :: b ++ sep :: c ++ sep :: d) = [a, b, c, d] := by
  have h1 : a ++ sep :: b ++ sep :: c ++ sep :: d
      = a ++ sep :: (b ++ sep :: (c ++ sep :: d)) := by
    simp [List.cons_append, List.append_assoc]
  rw [h1, splitOnChar_append sep a _ hA, splitOnChar_append sep b _ hB,
    splitOnChar_append sep c _ hC, splitOnChar_of_not_mem sep d hD]

/-- C5: on canonical components — a contig from the valid set, an in-range
position, and nonempty dash-free `ref`/`alt` alleles — parsing the formatted
`{contig}-{pos}-{ref}-{alt}` string succeeds and returns exactly
`(compute_xpos contig pos, ref, alt)`. -/
theorem parse_format_roundtrip (contig refAllele alt : String) (pos : Nat)
    (hc : validContig contig) (hpos : pos < 2 ^ 31)
    (hr : refAllele.toList ≠ [] ∧ '-' ∉ refAllele.toList)
    (ha : alt.toList ≠ [] ∧ '-' ∉ alt.toList) :
    parse_variant_id (make_variant_id contig (pos : Int) refAllele alt) =
      Except.ok (compute_xpos contig.toList pos, refAllele, alt) := by
  have hxpos : 0 < compute_xpos contig.toList pos :=
    (compute_xpos_valid contig.toList pos hc (by omega)).2
  unfold make_variant_id parse_variant_id
  rw [show (String.mk (contig.toList ++ '-' :: intToChars (pos : Int) ++
      '-' :: refAllele.toList ++ '-' :: alt.toList)).toList =
      contig.toList ++ '-' :: intToChars (pos : Int) ++
        '-' :: refAllele.toList ++ '-' :: alt.toList from rfl]
  rw [intToChars_natCast pos]
  rw [splitOnChar_quad '-' contig.toList (natToChars pos) refAllele.toList
    alt.toList (validContig_no_dash contig hc) (dash_not_mem_natToChars pos)
    hr.2 ha.2]
  dsimp only []
  rw [parseU32_natToChars pos (by omega)]
  dsimp only []
  rw [if_neg (by omega)]
  rfl

/-- C5 (witness): the round trip evaluated on the concrete canonical variant
`chr1-12345-A-T`. -/
theorem parse_format_roundtrip_witness :
    parse_variant_id (make_variant_id "chr1" (12345 : Int) "A" "T") =
      Except.ok (compute_xpos "chr1".toList 12345, "A", "T") :=
  parse_format_roundtrip "chr1" "A" "T" 12345 (by decide) (by norm_num)
    ⟨by decide, by decide⟩ ⟨by decide, by decide⟩

/-! ## C8: transcript shaping never hard-errors -/

/-- C8: shaping the serialized transcripts column yields the empty sequence on
the empty string or the literal `"[]"`, the empty sequence (not an error) when
the JSON parse fails, and the parsed sequence otherwise; the function is total
over every input string and every parser behaviour. -/
theorem transcripts_to_vec_spec (parseJsonList : String → Option (List Transcript))
    (s : String) :
    ((s = "" ∨ s = "[]") → transcripts_to_vec parseJsonList s = []) ∧
      (parseJsonList s = none → transcripts_to_vec parseJsonList s = []) ∧
      (∀ ts, ¬ (s = "" ∨ s = "[]") → parseJsonList s = some ts →
        transcripts_to_vec parseJsonList s = ts) := by
  refine ⟨?_, ?_, ?_⟩
  · intro h
    unfold transcripts_to_vec
    rw [if_pos h]
  · intro h
    unfold transcripts_to_vec
    split
    · rfl
    · rw [h]; rfl
  · intro ts hs hp
    unfold transcripts_to_vec
    rw [if_neg hs, hp]
    rfl

/-- C8 (witness): the characterization applied to a concrete failing parser
and the concrete column value `"x"`. -/
theorem transcripts_to_vec_spec_witness :
    transcripts_to_vec (fun _ => none) "x" = [] :=
  (transcripts_to_vec_spec (fun _ => none) "x").2.1 rfl

/-! ## C9: SQL statement splitting -/

/-- C9: the statement splitter returns, in order, exactly the trimmed
`;`-chunks that are nonempty and contain some line that is neither blank nor a
`--` comment, and consequently every returned statement is nonempty and holds
at least one non-comment line. -/
theorem split_sql_statements_spec (sql : String) :
    split_sql_statements sql =
      (((splitOnChar ';' sql.toList).map rustTrim).filter
        (fun s => ¬ s = [] ∧ ∃ line ∈ rustLines s, blankOrComment line = false)).map
        String.mk ∧
      ∀ t ∈ split_sql_statements sql,
        t ≠ "" ∧ ∃ line ∈ rustLines t.toList,
          rustTrim line ≠ [] ∧ startsWithDashDash (rustTrim line) = false := by
  have hfilter : (((splitOnChar ';' sql.toList).map rustTrim).filter
        (fun s => ¬ s = [] ∧ ¬ (rustLines s).all blankOrComment)) =
      (((splitOnChar ';' sql.toList).map rustTrim).filter
        (fun s => ¬ s = [] ∧ ∃ line ∈ rustLines s, blankOrComment line = false)) := by
    apply List.filter_congr
    intro s _
    simp only [decide_eq_decide]
    constructor
    · rintro ⟨h1, h2⟩
      refine ⟨h1, ?_⟩
      by_contra hno
      push_neg at hno
      exact h2 (List.all_eq_true.mpr fun line hl => by
        rcases Bool.eq_false_or_eq_true (blankOrComment line) with hb | hb
        · exact hb
        · exact absurd hb (hno line hl))
    · rintro ⟨h1, line, hl, hb⟩
      refine ⟨h1, fun hall => ?_⟩
      rw [List.all_eq_true] at hall
      rw [hall line hl] at hb
      exact Bool.noConfusion hb
  constructor
  · unfold split_sql_statements
    rw [hfilter]
  · intro t ht
    unfold split_sql_statements at ht
    rw [hfilter] at ht
    rcases List.mem_map.mp ht with ⟨s, hs, hts⟩
    have hprops := List.of_mem_filter hs
    rw [decide_eq_true_iff] at hprops
    obtain ⟨hne, line, hl, hb⟩ := hprops
    subst hts
    have hbl : ¬ (rustTrim line = [] ∨ startsWithDashDash (rustTrim line) = true) := by
      intro hor
      have : blankOrComment line = true := by
        unfold blankOrComment
        exact decide_eq_true hor
      rw [this] at hb
      exact Bool.noConfusion hb
    push_neg at hbl
    refine ⟨?_, line, hl, hbl.1, by simpa using hbl.2⟩
    intro hmk
    apply hne
    have : (String.mk s).toList = ("" : String).toList := by rw [hmk]
    simpa using this

/-! ## C10: gene-exon annotation lookup on a missing or exon-free gene -/

/-- C10: when the gene id resolves to no gene model, or to a gene whose exon
list is empty, the handler returns a successful `LookupResult` envelope with
an empty data array and count `0` (HTTP 200), not an error. -/
theorem get_annotations_by_gene_empty (geneOpt : Option GeneModel)
    (fetched : List VariantAnnotationRow) (t : ℚ)
    (h : geneOpt = none ∨ ∃ g, geneOpt = some g ∧ g.exons = []) :
    get_annotations_by_gene geneOpt fetched t =
      Except.ok { data := [], count := 0, storage_source := "clickhouse", time := t } := by
  rcases h with h | ⟨g, hg, hex⟩
  · subst h; rfl
  · subst hg
    unfold get_annotations_by_gene
    dsimp only []
    rw [if_pos hex]
    rfl

/-- C10 (witness): the theorem applied to the concrete missing-gene case. -/
theorem get_annotations_by_gene_empty_witness :
    get_annotations_by_gene none [] 0 =
      Except.ok { data := [], count := 0, storage_source := "clickhouse", time := 0 } :=
  get_annotations_by_gene_empty none [] 0 (Or.inl rfl)

/-! ## C2: zero-row behaviour of the single-row endpoints -/

/-- C2 (counterexample): on a zero-row store result for the concrete parsed
variant `1-100-A-T`, the single-variant association lookup returns a
*successful* empty `LookupResult` envelope — never a `NotFound` error — so
the claim that both single-row endpoints return 404 on zero rows is false. -/
theorem c2_counterexample :
    get_association_by_variant "1-100-A-T" "height" none 0 =
        Except.ok (LookupResult.new [] 0) ∧
      ∀ e, get_association_by_variant "1-100-A-T" "height" none 0 ≠
        Except.error e := by
  constructor
  · rfl
  · intro e h
    rw [show get_association_by_variant "1-100-A-T" "height" none 0 =
      Except.ok (LookupResult.new [] 0) from rfl] at h
    exact Except.noConfusion h

/-- C2 (amended): on a zero-row store result, the single-locus plot fetch
returns a `NotFound` error (HTTP 404) as claimed, while the single-variant
association lookup instead returns a successful `LookupResult` with an empty
data array. -/
theorem single_row_handlers_on_empty (vid aid : String) (t : ℚ)
    (anc pt : Option String) (x : Int × String × String)
    (h : parse_variant_id vid = Except.ok x) :
    get_association_by_variant vid aid none t = Except.ok (LookupResult.new [] t) ∧
      ∃ msg, get_manhattan_uri aid anc pt none = Except.error (AppError.notFound msg) := by
  constructor
  · unfold get_association_by_variant
    rw [h]
    rfl
  · exact ⟨_, rfl⟩


/-- C2 (witness): the amended claim at the concrete variant id `1-100-A-T`. -/
theorem single_row_handlers_on_empty_witness :
    get_association_by_variant "1-100-A-T" "height" none 0 =
        Except.ok (LookupResult.new [] 0) ∧
      ∃ msg, get_manhattan_uri "height" none none none =
        Except.error (AppError.notFound msg) :=
  single_row_handlers_on_empty "1-100-A-T" "height" 0 none none
    (1000000100, "A", "T") (by rfl)

/-! ## C6: sequencing-type normalization before binding -/

/-- C6: the gene-region variant query normalizes its sequencing type to the
singular form before binding, but the Manhattan top-N query over
`loci_variants` binds the caller value (default `"genomes"`) verbatim — it
never strips the trailing `s`, contradicting the claim for that query. -/
theorem manhattan_top_binds_plural :
    get_variants_by_gene_seq_bound none = "exome" ∧
      get_manhattan_top_seq_bound none = "genomes" ∧
      normalize_seq_type "genomes" = "genome" ∧
      get_manhattan_top_seq_bound none ≠
        normalize_seq_type (get_manhattan_top_seq_bound none) := by
  refine ⟨?_, rfl, ?_, ?_⟩
  · decide
  · decide
  · decide

/-! ## C7: analysis-asset hash id -/

theorem sipHash_lt (c d k0 k1 : Nat) (msg : List Nat) :
    Sip.sipHash c d k0 k1 msg < 2 ^ 64 := by
  unfold Sip.sipHash Sip.xor64 Sip.m64
  exact Nat.mod_lt _ (by norm_num)

theorem hexCharsAux_length (fuel : Nat) :
    ∀ n k, n < 16 ^ k → k ≤ fuel → (hexCharsAux fuel n).length ≤ k := by
  induction fuel with
  | zero => intro n k _ _; simp [hexCharsAux]
  | succ fuel ih =>
    intro n k hn hk
    unfold hexCharsAux
    split
    · simp
    · next hne =>
      rcases k with _ | k
      · rw [pow_zero] at hn
        omega
      · have hdiv : n / 16 < 16 ^ k := by
          rw [Nat.div_lt_iff_lt_mul (by norm_num)]
          calc n < 16 ^ (k + 1) := hn
          _ = 16 ^ k * 16 := by rw [pow_succ]
        have := ih (n / 16) k hdiv (by omega)
        simp only [List.length_append, List.length_cons, List.length_nil]
        omega

theorem hexCharsAux_mem (fuel : Nat) :
    ∀ n c, c ∈ hexCharsAux fuel n → ∃ d, d < 16 ∧ c = hexDigitChar d := by
  induction fuel with
  | zero => intro n c hc; simp [hexCharsAux] at hc
  | succ fuel ih =>
    intro n c hc
    unfold hexCharsAux at hc
    split at hc
    · simp at hc
    · rcases List.mem_append.mp hc with hc | hc
      · exact ih (n / 16) c hc
      · rw [List.mem_singleton] at hc
        exact ⟨n % 16, Nat.mod_lt n (by norm_num), hc⟩

theorem hexPad12_length (n : Nat) (h : n < 2 ^ 64) :
    12 ≤ (hexPad12 n).length ∧ (hexPad12 n).length ≤ 16 := by
  unfold hexPad12
  split
  · decide
  · next hne =>
    have hlen : (hexChars n).length ≤ 16 := by
      apply hexCharsAux_length 64 n 16 _ (by norm_num)
      calc n < 2 ^ 64 := h
      _ = 16 ^ 16 := by norm_num
    have : (String.mk (List.replicate (12 - (hexChars n).length) '0' ++ hexChars n)).length
        = (12 - (hexChars n).length) + (hexChars n).length := by
      simp [String.length]
    rw [this]
    omega

theorem hexPad12_chars (n : Nat) :
    ∀ c ∈ (hexPad12 n).toList, c ∈ "0123456789abcdef".toList := by
  intro c hc
  unfold hexPad12 at hc
  split at hc
  · rw [show (String.mk (List.replicate (12 - ['0'].length) '0' ++ ['0'])).toList
      = List.replicate 11 '0' ++ ['0'] from rfl] at hc
    rcases List.mem_append.mp hc with hc | hc
    · rw [List.eq_of_mem_replicate hc]; decide
    · rw [List.mem_singleton] at hc; rw [hc]; decide
  · rw [show ∀ l : List Char, (String.mk l).toList = l from fun _ => rfl] at hc
    rcases List.mem_append.mp hc with hc | hc
    · rw [List.eq_of_mem_replicate hc]; decide
    · obtain ⟨d, hd, hcd⟩ := hexCharsAux_mem 64 n c hc
      subst hcd
      have hall : ∀ d : Nat, d < 16 → hexDigitChar d ∈ "0123456789abcdef".toList := by
        decide
      exact hall d hd

/-- C7 (counterexample): for the concrete asset
`(height, Meta, no sequencing type)` the hash id is the 16-character string
`"57a7a865454313eb"` — `{:012x}` only pads to a *minimum* of 12 digits, so a
hash above `2^48` (the typical case) prints all 13–16 of its digits and the
claim `exactly 12 digits` is false. -/
theorem c7_counterexample :
    (AnalysisAsset.hash_id
      { ancestry_group := AncestryGroup.meta
        analysis_id := "height"
        uri := ""
        asset_type := AnalysisAssetType.variant
        sequencing_type := none }).length ≠ 12 := by
  decide

/-- C7 (amended): `hash_id` is a deterministic function of
`(analysis_id, ancestry_group, sequencing_type)` — equal inputs give equal
output regardless of the other fields — and the output is a string of 12 to
16 lowercase hexadecimal digits (zero-padded to at least 12; a 64-bit hash
value can print up to 16). -/
theorem hash_id_deterministic_hex (x y : AnalysisAsset)
    (h1 : x.analysis_id = y.analysis_id)
    (h2 : x.ancestry_group = y.ancestry_group)
    (h3 : x.sequencing_type = y.sequencing_type) :
    AnalysisAsset.hash_id x = AnalysisAsset.hash_id y ∧
      12 ≤ (AnalysisAsset.hash_id x).length ∧
      (AnalysisAsset.hash_id x).length ≤ 16 ∧
      ∀ c ∈ (AnalysisAsset.hash_id x).toList, c ∈ "0123456789abcdef".toList := by
  have hkey : AnalysisAsset.hashKey x = AnalysisAsset.hashKey y := by
    unfold AnalysisAsset.hashKey
    rw [h1, h2, h3]
  have hlen := hexPad12_length (Sip.sipHash13 (strBytes (AnalysisAsset.hashKey x) ++ [0xff]))
    (sipHash_lt 1 3 0 0 _)
  exact ⟨by unfold AnalysisAsset.hash_id; rw [hkey], hlen.1, hlen.2,
    hexPad12_chars _⟩

/-- C7 (witness): determinism and the digit bounds at two concrete assets
that agree on the hashed triple but differ in `uri` and `asset_type`. -/
theorem hash_id_deterministic_hex_witness :
    AnalysisAsset.hash_id
        { ancestry_group := AncestryGroup.eur
          analysis_id := "bmi"
          uri := "gs://a"
          asset_type := AnalysisAssetType.variant
          sequencing_type := some SequencingType.exomes } =
      AnalysisAsset.hash_id
        { ancestry_group := AncestryGroup.eur
          analysis_id := "bmi"
          uri := "gs://b"
          asset_type := AnalysisAssetType.gene
          sequencing_type := some SequencingType.exomes } ∧
      12 ≤ (AnalysisAsset.hash_id
        { ancestry_group := AncestryGroup.eur
          analysis_id := "bmi"
          uri := "gs://a"
          asset_type := AnalysisAssetType.variant
          sequencing_type := some SequencingType.exomes }).length ∧
      (AnalysisAsset.hash_id
        { ancestry_group := AncestryGroup.eur
          analysis_id := "bmi"
          uri := "gs://a"
          asset_type := AnalysisAssetType.variant
          sequencing_type := some SequencingType.exomes }).length ≤ 16 ∧
      ∀ c ∈ (AnalysisAsset.hash_id
        { ancestry_group := AncestryGroup.eur
          analysis_id := "bmi"
          uri := "gs://a"
          asset_type := AnalysisAssetType.variant
          sequencing_type := some SequencingType.exomes }).toList,
        c ∈ "0123456789abcdef".toList :=
  hash_id_deterministic_hex _ _ rfl rfl rfl

/-! ## C1: client-side folding of the peak-annotation rows -/

namespace Manhattan

@[simp] theorem peakKey_addGene (p : Peak) (r : PeakGeneRow) :
    peakKey (addGene p r) = peakKey p := rfl

@[simp] theorem genes_addGene (p : Peak) (r : PeakGeneRow) :
    (addGene p r).genes = p.genes ++ [rowGene r] := rfl

@[simp] theorem contig_addGene (p : Peak) (r : PeakGeneRow) :
    (addGene p r).contig = p.contig := rfl

@[simp] theorem position_addGene (p : Peak) (r : PeakGeneRow) :
    (addGene p r).position = p.position := rfl

@[simp] theorem pvalue_addGene (p : Peak) (r : PeakGeneRow) :
    (addGene p r).pvalue = p.pvalue := rfl

@[simp] theorem peakKey_rowPeak (r : PeakGeneRow) :
    peakKey (rowPeak r) = rowKey r := rfl

theorem length_dropWhile_le {α : Type} (p : α → Bool) (l : List α) :
    (l.dropWhile p).length ≤ l.length := by
  induction l with
  | nil => simp
  | cons a l ih =>
    rw [List.dropWhile_cons]
    split_ifs
    · simpa using Nat.le_succ_of_le ih
    · simp

theorem rowKey_eq_peakKey_iff (r : PeakGeneRow) (p : Peak) :
    rowKey r = peakKey p ↔ (p.contig = r.contig ∧ p.position = r.peak_position) := by
  unfold rowKey peakKey
  rw [Prod.mk.injEq]
  constructor
  · rintro ⟨h1, h2⟩; exact ⟨h1.symm, h2.symm⟩
  · rintro ⟨h1, h2⟩; exact ⟨h1.symm, h2.symm⟩

theorem foldPeaksGo_some (rows : List PeakGeneRow) :
    ∀ (p : Peak) (acc : List Peak),
      foldPeaksGo (some p) acc rows = acc ++ absorb p rows := by
  induction rows with
  | nil => intro p acc; rfl
  | cons r rs ih =>
    intro p acc
    simp only [foldPeaksGo, absorb]
    split_ifs with h
    · exact ih (addGene p r) acc
    · rw [ih (rowPeak r) (acc ++ [p])]
      simp [List.append_assoc]

theorem fold_peak_rows_cons (r : PeakGeneRow) (rs : List PeakGeneRow) :
    fold_peak_rows (r :: rs) = absorb (rowPeak r) rs := by
  unfold fold_peak_rows
  rw [show foldPeaksGo none [] (r :: rs) =
    foldPeaksGo (some (rowPeak r)) [] rs from rfl]
  rw [foldPeaksGo_some]
  rfl

theorem absorb_eq (rows : List PeakGeneRow) :
    ∀ p : Peak,
      absorb p rows =
        Peak.mk p.contig p.position p.pvalue
            (p.genes ++ (rows.takeWhile (fun r => rowKey r = peakKey p)).map rowGene) ::
          fold_peak_rows (rows.dropWhile (fun r => rowKey r = peakKey p)) := by
  induction rows with
  | nil =>
    intro p
    simp [absorb, fold_peak_rows, foldPeaksGo]
  | cons r rs ih =>
    intro p
    simp only [absorb]
    split_ifs with h
    · have hkey : decide (rowKey r = peakKey p) = true :=
        decide_eq_true ((rowKey_eq_peakKey_iff r p).mpr h)
      rw [ih (addGene p r)]
      simp only [peakKey_addGene, contig_addGene, position_addGene,
        pvalue_addGene, genes_addGene, List.takeWhile_cons, List.dropWhile_cons,
        hkey, if_true, List.map_cons]
      simp [List.append_assoc]
    · have hkey : decide (rowKey r = peakKey p) = false :=
        decide_eq_false (fun he => h ((rowKey_eq_peakKey_iff r p).mp he))
      simp only [List.takeWhile_cons, List.dropWhile_cons, hkey,
        Bool.false_eq_true, if_false, List.map_nil, List.append_nil]
      rw [← fold_peak_rows_cons]

theorem mem_dedupAdj {α : Type} [DecidableEq α] (l : List α) (x : α) :
    x ∈ dedupAdj l ↔ x ∈ l := by
  induction l with
  | nil => simp [dedupAdj]
  | cons a l ih =>
    cases l with
    | nil => simp [dedupAdj]
    | cons b t =>
      simp only [dedupAdj]
      split_ifs with hab
      · subst hab
        rw [ih]
        simp [List.mem_cons]
      · simp [List.mem_cons, ih]

theorem dedupAdj_cons_eq {α : Type} [DecidableEq α] (k : α) (l : List α) :
    dedupAdj (k :: l) = k :: dedupAdj (l.dropWhile (fun x => x = k)) := by
  induction l with
  | nil => rfl
  | cons a l ih =>
    by_cases hak : a = k
    · subst hak
      rw [show dedupAdj (a :: a :: l) = dedupAdj (a :: l) from by simp [dedupAdj]]
      rw [List.dropWhile_cons]
      simp only [decide_True, if_true]
      exact ih
    · have hka : ¬ k = a := fun he => hak he.symm
      rw [show dedupAdj (k :: a :: l) = k :: dedupAdj (a :: l) from by
        simp [dedupAdj, hka]]
      rw [List.dropWhile_cons]
      simp [hak]

theorem fold_cons_eq (r : PeakGeneRow) (rs : List PeakGeneRow) :
    fold_peak_rows (r :: rs) =
      Peak.mk r.contig r.peak_position r.peak_pvalue
          (rowGene r :: (rs.takeWhile (fun x => rowKey x = rowKey r)).map rowGene) ::
        fold_peak_rows (rs.dropWhile (fun x => rowKey x = rowKey r)) := by
  rw [fold_peak_rows_cons, absorb_eq]
  rfl

theorem fold_map_peakKey_aux (n : Nat) :
    ∀ rows : List PeakGeneRow, rows.length ≤ n →
      (fold_peak_rows rows).map peakKey = dedupAdj (rows.map rowKey) := by
  induction n with
  | zero =>
    intro rows hlen
    have h0 : rows = [] := List.eq_nil_of_length_eq_zero (by omega)
    subst h0
    rfl
  | succ n ih =>
    intro rows hlen
    match rows with
    | [] => rfl
    | r :: rs =>
      rw [fold_cons_eq, List.map_cons]
      have hrest : (rs.dropWhile (fun x => rowKey x = rowKey r)).length ≤ n := by
        have h1 := length_dropWhile_le (fun x => decide (rowKey x = rowKey r)) rs
        simp only [List.length_cons] at hlen
        omega
      rw [ih _ hrest, List.map_cons, dedupAdj_cons_eq (rowKey r), List.dropWhile_map]
      rfl

theorem fold_peak_rows_genes_aux (n : Nat) :
    ∀ rows : List PeakGeneRow, rows.length ≤ n →
      (dedupAdj (rows.map rowKey)).Nodup →
      ∀ p ∈ fold_peak_rows rows,
        p.genes = (rows.filter (fun r => rowKey r = peakKey p)).map rowGene := by
  induction n with
  | zero =>
    intro rows hlen _ p hp
    have h0 : rows = [] := List.eq_nil_of_length_eq_zero (by omega)
    subst h0
    simp [fold_peak_rows, foldPeaksGo] at hp
  | succ n ih =>
    intro rows hlen hnd p hp
    match rows with
    | [] => simp [fold_peak_rows, foldPeaksGo] at hp
    | r :: rs =>
      have hksplit : dedupAdj ((r :: rs).map rowKey) =
          rowKey r :: dedupAdj ((rs.dropWhile (fun x => rowKey x = rowKey r)).map rowKey) := by
        rw [List.map_cons, dedupAdj_cons_eq (rowKey r), List.dropWhile_map]
        rfl
      rw [hksplit, List.nodup_cons] at hnd
      have hnotail : rowKey r ∉
          (rs.dropWhile (fun x => rowKey x = rowKey r)).map rowKey :=
        fun hm => hnd.1 ((mem_dedupAdj _ _).mpr hm)
      have hrest : (rs.dropWhile (fun x => rowKey x = rowKey r)).length ≤ n := by
        have h1 := length_dropWhile_le (fun x => decide (rowKey x = rowKey r)) rs
        simp only [List.length_cons] at hlen
        omega
      have hsplit : rs = rs.takeWhile (fun x => rowKey x = rowKey r) ++
          rs.dropWhile (fun x => rowKey x = rowKey r) :=
        (List.takeWhile_append_dropWhile _ _).symm
      rw [fold_cons_eq] at hp
      rcases List.mem_cons.mp hp with hp | hp
      · -- p is the head peak, absorbing the leading run of its key
        subst hp
        show rowGene r :: (rs.takeWhile (fun x => rowKey x = rowKey r)).map rowGene =
          ((r :: rs).filter (fun x => rowKey x = rowKey r)).map rowGene
        rw [List.filter_cons, if_pos (by simp), List.map_cons]
        congr 1
        conv_rhs => rw [hsplit]
        rw [List.filter_append]
        have htake : (rs.takeWhile (fun x => rowKey x = rowKey r)).filter
            (fun x => rowKey x = rowKey r) =
            rs.takeWhile (fun x => rowKey x = rowKey r) := by
          apply List.filter_eq_self.mpr
          intro a ha
          have h2 := List.mem_takeWhile_imp ha
          exact h2
        have hdrop : (rs.dropWhile (fun x => rowKey x = rowKey r)).filter
            (fun x => rowKey x = rowKey r) = [] := by
          apply List.filter_eq_nil_iff.mpr
          intro a ha hpa
          exact hnotail (List.mem_map.mpr ⟨a, ha, of_decide_eq_true hpa⟩)
        rw [htake, hdrop, List.append_nil]
      · -- p comes from folding the remainder after the leading run
        have hpss : peakKey p ∈
            dedupAdj ((rs.dropWhile (fun x => rowKey x = rowKey r)).map rowKey) := by
          rw [← fold_map_peakKey_aux n _ hrest]
          exact List.mem_map.mpr ⟨p, hp, rfl⟩
        have hkp : rowKey r ≠ peakKey p := fun he => hnd.1 (he.symm ▸ hpss)
        have hgenes := ih _ hrest hnd.2 p hp
        rw [hgenes]
        congr 1
        rw [List.filter_cons, if_neg (by simpa using hkp)]
        conv_rhs => rw [hsplit]
        rw [List.filter_append]
        have htake0 : (rs.takeWhile (fun x => rowKey x = rowKey r)).filter
            (fun x => rowKey x = peakKey p) = [] := by
          apply List.filter_eq_nil_iff.mpr
          intro a ha hpa
          have hka := List.mem_takeWhile_imp ha
          rw [decide_eq_true_iff] at hka
          apply hkp
          rw [← hka]
          exact of_decide_eq_true hpa
        rw [htake0, List.nil_append]

/-- C1 (counterexample): a row sequence that satisfies the C5 query's stated
ordering — sorted by `(peak_pvalue ASC, distance ASC)`, with the p-value a
function of the peak key — on which the single-pass fold emits *two* `Peak`
records for the key `(chr1, 100)`: ties in `peak_pvalue` let the ordering
interleave two peaks, so the claim that every distinct `(contig,
peak_position)` yields exactly one `Peak` is false. -/
theorem c1_counterexample :
    sortedByPvalueDistance tiedRows ∧ keyDeterminesPvalue tiedRows ∧
      (fold_peak_rows tiedRows).map peakKey =
        [("chr1", 100), ("chr1", 200), ("chr1", 100)] ∧
      ¬ ((fold_peak_rows tiedRows).map peakKey).Nodup := by
  refine ⟨?_, ?_, ?_, ?_⟩
  · unfold sortedByPvalueDistance tiedRows
    decide
  · unfold keyDeterminesPvalue tiedRows
    decide
  · decide
  · decide

/-- C1 (amended): whenever rows with equal `(contig, peak_position)` are
contiguous in the input (as the stated ordering guarantees when no two
distinct peaks share a `peak_pvalue`), the single forward pass with no
re-sort folds the rows into one `Peak` per distinct key; the peaks appear in
first-occurrence order of their keys and each peak's genes are exactly its
rows' genes in input order. -/
theorem fold_peak_rows_grouped (rows : List PeakGeneRow)
    (h : (dedupAdj (rows.map rowKey)).Nodup) :
    (fold_peak_rows rows).map peakKey = dedupAdj (rows.map rowKey) ∧
      ((fold_peak_rows rows).map peakKey).Nodup ∧
      ∀ p ∈ fold_peak_rows rows,
        p.genes = (rows.filter (fun r => rowKey r = peakKey p)).map rowGene := by
  refine ⟨fold_map_peakKey_aux rows.length rows le_rfl, ?_, ?_⟩
  · rw [fold_map_peakKey_aux rows.length rows le_rfl]
    exact h
  · exact fold_peak_rows_genes_aux rows.length rows le_rfl h

/-- C1 (witness): the amended theorem applied to the concrete grouped order
of the same three rows: one `Peak` per key, keys in first-occurrence order,
genes in input order. -/
theorem fold_peak_rows_grouped_witness :
    (fold_peak_rows groupedRows).map peakKey = dedupAdj (groupedRows.map rowKey) ∧
      ((fold_peak_rows groupedRows).map peakKey).Nodup ∧
      ∀ p ∈ fold_peak_rows groupedRows,
        p.genes = (groupedRows.filter (fun r => rowKey r = peakKey p)).map rowGene :=
  fold_peak_rows_grouped groupedRows (by decide)

end Manhattan

/-! ## C3: soundness of the unified-overview merge -/

theorem foldl_inv {α β : Type} (P : β → Prop) (f : β → α → β) (l : List α) (b : β)
    (hb : P b) (hf : ∀ acc a, a ∈ l → P acc → P (f acc a)) : P (l.foldl f b) := by
  induction l generalizing b with
  | nil => exact hb
  | cons a l ih =>
    rw [List.foldl_cons]
    exact ih (f b a) (hf b a (List.mem_cons_self a l) hb)
      (fun acc x hx hacc => hf acc x (List.mem_cons_of_mem a hx) hacc)

namespace Overview

theorem mem_mapInsert (k : String) (v : UnifiedLocus) (m : LociMap) (e : String × UnifiedLocus)
    (he : e ∈ mapInsert k v m) : e = (k, v) ∨ e ∈ m := by
  induction m with
  | nil => simpa [mapInsert] using he
  | cons e0 t ih =>
    unfold mapInsert at he
    split_ifs at he with h0
    · rcases List.mem_cons.mp he with he | he
      · exact Or.inl he
      · exact Or.inr (List.mem_cons_of_mem e0 he)
    · rcases List.mem_cons.mp he with he | he
      · exact Or.inr (he ▸ List.mem_cons_self e0 t)
      · rcases ih he with h | h
        · exact Or.inl h
        · exact Or.inr (List.mem_cons_of_mem e0 h)

theorem keys_mem_mapInsert (k : String) (v : UnifiedLocus) (m : LociMap) (x : String) :
    x ∈ (mapInsert k v m).map Prod.fst ↔ x = k ∨ x ∈ m.map Prod.fst := by
  induction m with
  | nil => simp [mapInsert]
  | cons e0 t ih =>
    unfold mapInsert
    split_ifs with h0
    · subst h0
      simp [List.mem_cons]
    · simp only [List.map_cons, List.mem_cons, ih]
      constructor
      · rintro (h | h | h)
        · exact Or.inr (Or.inl h)
        · exact Or.inl h
        · exact Or.inr (Or.inr h)
      · rintro (h | h | h)
        · exact Or.inr (Or.inl h)
        · exact Or.inl h
        · exact Or.inr (Or.inr h)

theorem nodup_mapInsert (k : String) (v : UnifiedLocus) (m : LociMap)
    (h : (m.map Prod.fst).Nodup) : ((mapInsert k v m).map Prod.fst).Nodup := by
  induction m with
  | nil => simp [mapInsert]
  | cons e0 t ih =>
    rw [List.map_cons, List.nodup_cons] at h
    unfold mapInsert
    split_ifs with h0
    · rw [List.map_cons, List.nodup_cons]
      exact ⟨h0 ▸ h.1, h.2⟩
    · rw [List.map_cons, List.nodup_cons]
      refine ⟨?_, ih h.2⟩
      intro hm
      rcases (keys_mem_mapInsert k v t e0.1).mp hm with hm | hm
      · exact h0 hm
      · exact h.1 hm

theorem keys_mapUpdate (k : String) (f : UnifiedLocus → UnifiedLocus) (m : LociMap) :
    (mapUpdate k f m).map Prod.fst = m.map Prod.fst := by
  induction m with
  | nil => rfl
  | cons e0 t ih =>
    unfold mapUpdate
    split_ifs with h0
    · simp
    · simp [ih]

theorem mem_mapUpdate (k : String) (f : UnifiedLocus → UnifiedLocus) (m : LociMap)
    (e : String × UnifiedLocus) (he : e ∈ mapUpdate k f m) :
    e ∈ m ∨ ∃ e0 ∈ m, e = (e0.1, f e0.2) := by
  induction m with
  | nil => simp [mapUpdate] at he
  | cons e0 t ih =>
    unfold mapUpdate at he
    split_ifs at he with h0
    · rcases List.mem_cons.mp he with he | he
      · exact Or.inr ⟨e0, List.mem_cons_self e0 t, he⟩
      · exact Or.inl (List.mem_cons_of_mem e0 he)
    · rcases List.mem_cons.mp he with he | he
      · exact Or.inl (he ▸ List.mem_cons_self e0 t)
      · rcases ih he with h | ⟨e1, h1, h2⟩
        · exact Or.inl (List.mem_cons_of_mem e0 h)
        · exact Or.inr ⟨e1, List.mem_cons_of_mem e0 h1, h2⟩

theorem mapInv_insert (gps eps : List Peak) (brs : List SignificantBurdenRow)
    (m : LociMap) (k : String) (v : UnifiedLocus)
    (hm : mapInv gps eps brs m) (hk : k = locus_key v.contig v.position)
    (hv : locusFromInputs gps eps brs v) :
    mapInv gps eps brs (mapInsert k v m) := by
  refine ⟨nodup_mapInsert k v m hm.1, ?_⟩
  intro e he
  rcases mem_mapInsert k v m e he with he | he
  · subst he
    exact ⟨hk, hv⟩
  · exact hm.2 e he

theorem mapInv_update (gps eps : List Peak) (brs : List SignificantBurdenRow)
    (m : LociMap) (k : String) (f : UnifiedLocus → UnifiedLocus)
    (hm : mapInv gps eps brs m)
    (hf : ∀ l, (f l).contig = l.contig ∧ (f l).position = l.position) :
    mapInv gps eps brs (mapUpdate k f m) := by
  refine ⟨by rw [keys_mapUpdate]; exact hm.1, ?_⟩
  intro e he
  rcases mem_mapUpdate k f m e he with he | ⟨e0, h0, h1⟩
  · exact hm.2 e he
  · subst h1
    obtain ⟨hkey, horig⟩ := hm.2 e0 h0
    obtain ⟨hc, hp⟩ := hf e0.2
    constructor
    · rw [hc, hp]
      exact hkey
    · unfold locusFromInputs at horig ⊢
      rw [hc, hp]
      exact horig

theorem bumpExome_coords (peak : Peak) (l : UnifiedLocus) :
    (bumpExome peak l).contig = l.contig ∧
      (bumpExome peak l).position = l.position := by
  unfold bumpExome
  rcases hpe : l.pvalue_exome with _ | p0
  · exact ⟨rfl, rfl⟩
  · by_cases hlt : peak.pvalue < p0 <;> simp [hlt]

theorem applyExomePeak_coords (peak : Peak) (l : UnifiedLocus) :
    (applyExomePeak peak l).contig = l.contig ∧
      (applyExomePeak peak l).position = l.position :=
  bumpExome_coords peak l

theorem groupByGeneId_rows_mem (brs : List SignificantBurdenRow) :
    ∀ grp ∈ groupByGeneId brs, ∀ r ∈ grp.2, r ∈ brs := by
  unfold groupByGeneId
  refine foldl_inv (fun acc => ∀ grp ∈ acc, ∀ r ∈ grp.2, r ∈ brs) pushRow brs [] ?_ ?_
  · intro grp hgrp
    simp at hgrp
  · intro acc a ha hacc grp hgrp r hr
    unfold pushRow at hgrp
    split_ifs at hgrp with h0
    · rcases List.mem_map.mp hgrp with ⟨e0, he0, heq⟩
      by_cases h1 : e0.1 = a.gene_id
      · rw [if_pos h1] at heq
        subst heq
        rcases List.mem_append.mp hr with hr | hr
        · exact hacc e0 he0 r hr
        · rw [List.mem_singleton] at hr
          exact hr ▸ ha
      · rw [if_neg h1] at heq
        subst heq
        exact hacc e0 he0 r hr
    · rcases List.mem_append.mp hgrp with hgrp | hgrp
      · exact hacc grp hgrp r hr
      · rw [List.mem_singleton] at hgrp
        subst hgrp
        rw [List.mem_singleton] at hr
        exact hr ▸ ha

theorem build_loci_map_inv (gps eps : List Peak) (brs : List SignificantBurdenRow) :
    mapInv gps eps brs (build_loci_map gps eps brs) := by
  unfold build_loci_map
  refine foldl_inv (mapInv gps eps brs) mergeBurdenGroup (groupByGeneId brs) _ ?_ ?_
  · -- after the exome pass, given the genome pass holds
    refine foldl_inv (mapInv gps eps brs) mergeExomePeak eps _ ?_ ?_
    · -- the genome pass
      refine foldl_inv (mapInv gps eps brs) _ gps [] ?_ ?_
      · exact ⟨List.nodup_nil, fun e he => absurd he (List.not_mem_nil e)⟩
      · intro acc p hp hacc
        refine mapInv_insert gps eps brs acc (locus_key p.contig p.position)
          (peak_to_unified_locus p "genome") hacc rfl ?_
        exact Or.inl ⟨p, hp, rfl, rfl⟩
    · intro acc p hp hacc
      unfold mergeExomePeak
      split_ifs with h0
      · exact mapInv_update gps eps brs acc _ _ hacc (applyExomePeak_coords p)
      · refine mapInv_insert gps eps brs acc (locus_key p.contig p.position)
          (peak_to_unified_locus p "exome") hacc rfl ?_
        exact Or.inr (Or.inl ⟨p, hp, rfl, rfl⟩)
  · intro acc grp hgrp hacc
    unfold mergeBurdenGroup
    rcases hrows : grp.2 with _ | ⟨first, rest⟩
    · exact hacc
    · have hfirst : first ∈ brs :=
        groupByGeneId_rows_mem brs grp hgrp first (hrows ▸ List.mem_cons_self first rest)
      dsimp only []
      split_ifs with h0
      · apply mapInv_update gps eps brs acc _ _ hacc
        intro l
        split_ifs <;> exact ⟨rfl, rfl⟩
      · refine mapInv_insert gps eps brs acc
          (locus_key first.contig first.gene_start_position)
          { contig := first.contig
            position := first.gene_start_position
            pvalue_genome := none
            pvalue_exome := none
            genes := [{ gene_symbol := first.gene_symbol
                        gene_id := grp.1
                        distance_kb := 0
                        genome_coding_hits := none
                        exome_coding_hits := none
                        burden_results := burdenResultsOf (first :: rest) }] }
          hacc rfl ?_
        exact Or.inr (Or.inr ⟨first, hfirst, rfl, rfl⟩)

theorem locus_key_of_bin (c1 c2 : String) (p1 p2 : Int) (hc : c1 = c2)
    (hb : Int.tdiv p1 1000000 = Int.tdiv p2 1000000) :
    locus_key c1 p1 = locus_key c2 p2 := by
  unfold locus_key
  rw [hc, hb]

/-- C3: every locus in the unified-overview merge output takes its 1 Mb bin
key `(contig, position / 1_000_000)` from at least one input genome peak,
exome peak, or significant burden row, and no two output loci share a bin
key. -/
theorem overview_merge_sound (gps eps : List Peak) (brs : List SignificantBurdenRow) :
    (∀ l ∈ unified_loci gps eps brs,
        (∃ p ∈ gps, locusBin l = peakBin p) ∨
          (∃ p ∈ eps, locusBin l = peakBin p) ∨
          (∃ r ∈ brs, locusBin l = burdenBin r)) ∧
      (unified_loci gps eps brs).Pairwise (fun a b => locusBin a ≠ locusBin b) := by
  obtain ⟨hnd, hent⟩ := build_loci_map_inv gps eps brs
  have hperm : (unified_loci gps eps brs).Perm
      ((build_loci_map gps eps brs).map (fun e => e.2)) :=
    List.mergeSort_perm _ _
  constructor
  · intro l hl
    have hl2 : l ∈ (build_loci_map gps eps brs).map (fun e => e.2) :=
      hperm.mem_iff.mp hl
    rcases List.mem_map.mp hl2 with ⟨e, hem, hev⟩
    obtain ⟨_, horig⟩ := hent e hem
    rw [← hev]
    unfold locusFromInputs at horig
    rcases horig with ⟨p, hp, hc, hpos⟩ | ⟨p, hp, hc, hpos⟩ | ⟨r, hr, hc, hpos⟩
    · exact Or.inl ⟨p, hp, by unfold locusBin peakBin; rw [hc, hpos]⟩
    · exact Or.inr (Or.inl ⟨p, hp, by unfold locusBin peakBin; rw [hc, hpos]⟩)
    · exact Or.inr (Or.inr ⟨r, hr, by unfold locusBin burdenBin; rw [hc, hpos]⟩)
  · have hpm : ((build_loci_map gps eps brs).map (fun e => e.2)).Pairwise
        (fun a b => locusBin a ≠ locusBin b) := by
      rw [List.pairwise_map]
      have hkeys : (build_loci_map gps eps brs).Pairwise
          (fun e e2 => e.1 ≠ e2.1) := List.pairwise_map.mp hnd
      apply List.Pairwise.imp_of_mem ?_ hkeys
      intro a b ha hb hne hbin
      apply hne
      obtain ⟨hka, _⟩ := hent a ha
      obtain ⟨hkb, _⟩ := hent b hb
      rw [hka, hkb]
      unfold locusBin at hbin
      rw [Prod.mk.injEq] at hbin
      exact locus_key_of_bin _ _ _ _ hbin.1 hbin.2
    exact (List.Perm.pairwise_iff
      (by intro a b h he; exact h he.symm) hperm).mpr hpm

end Overview

end AxAoU
